import Mathlib

/-!
Shallow embedding of the `n-r-ai` rules engine
(`src/n_r_ai/core/{board,game_state,actions,rules}.py`) in Lean 4.

Python dictionaries are embedded as association lists (`List (K × V)`),
Python sets as lists used up to membership, and Python `int` as `Int`
(Python's `%` on a positive modulus agrees with `Int.emod`).
Iteration order over Python sets/dicts is modelled by sorted lists where
the source sorts, and by list order otherwise; no claim proved below
depends on an iteration order the source leaves unspecified.
-/

namespace NRAI

abbrev RoomId := String
abbrev Edge := RoomId × RoomId

/-- Lexicographic comparison of character lists by code point. -/
def charListLe : List Char → List Char → Bool
  | [], _ => true
  | _ :: _, [] => false
  | c :: cs, d :: ds => if c < d then true else if d < c then false else charListLe cs ds

/-- Python's `<=` on strings: lexicographic by code point (semantically
Lean's `String.le`, but structurally recursive so it evaluates in the
kernel). -/
def strLe (a b : String) : Bool :=
  charListLe a.data b.data

/-- `_norm_edge` from rules.py: canonical (sorted) order of an undirected edge. -/
def normEdge (a b : RoomId) : Edge :=
  if strLe a b then (a, b) else (b, a)

-- ---------------------------------------------------------------------------
-- association-list dictionary helpers
-- ---------------------------------------------------------------------------

section Maps

variable {K V : Type} [DecidableEq K]

/-- First binding of key `k`, mirroring Python `dict.get(k)`. -/
def lookup? (m : List (K × V)) (k : K) : Option V :=
  (m.find? (fun p => p.1 = k)).map Prod.snd

/-- `dict.get(k, d)`. -/
def lookupD (m : List (K × V)) (k : K) (d : V) : V :=
  (lookup? m k).getD d

/-- `k in dict`. -/
def hasKey (m : List (K × V)) (k : K) : Bool :=
  (lookup? m k).isSome

/-- `dict[k] = v`: replace the first binding of `k`, or append a new one. -/
def setKey : List (K × V) → K → V → List (K × V)
  | [], k, v => [(k, v)]
  | p :: rest, k, v => if p.1 = k then (k, v) :: rest else p :: setKey rest k v

/-- `dict.pop(k, None)`: drop every binding of `k`. -/
def eraseKey (m : List (K × V)) (k : K) : List (K × V) :=
  m.filter (fun p => p.1 ≠ k)

end Maps

/-- Insertion into a sorted list of strings. -/
def insertSorted (x : String) : List String → List String
  | [] => [x]
  | y :: ys => if strLe x y then x :: y :: ys else y :: insertSorted x ys

/-- `sorted(...)` on strings (Python sorts lexicographically, as Lean's
`String` order does). -/
def sortStr (l : List String) : List String :=
  l.foldr insertSorted []

/-- Distinct elements of a list (set semantics; keeps one copy of each). -/
def dedup {α : Type} [DecidableEq α] : List α → List α
  | [] => []
  | x :: xs => if x ∈ xs then dedup xs else x :: dedup xs

-- ---------------------------------------------------------------------------
-- board.py
-- ---------------------------------------------------------------------------

/-- `Board` from board.py: rooms, undirected edges, room-type labels. -/
structure Board where
  rooms : List RoomId
  edges : List Edge
  room_types : List (RoomId × String)
  deriving DecidableEq, Repr

/-- `Board.neighbors`: endpoints of edges incident to `r`.  The Python
version returns a set; we return the sorted list of its elements. -/
def Board.neighbors (b : Board) (r : RoomId) : List RoomId :=
  sortStr (dedup
    ((b.edges.filterMap (fun e => if e.1 = r then some e.2 else none)) ++
     (b.edges.filterMap (fun e => if e.2 = r then some e.1 else none))))

/-- The default three-room board from game_state.py. -/
def defaultBoard : Board :=
  { rooms := ["A", "B", "C"]
    edges := [("A", "B"), ("B", "C")]
    room_types := [("A", "DEFAULT"), ("B", "CONTROL"), ("C", "DEFAULT")] }

-- ---------------------------------------------------------------------------
-- game_state.py
-- ---------------------------------------------------------------------------

/-- `Phase` enum from game_state.py. -/
inductive Phase where
  | SETUP | PLAYER | ENEMY | EVENT | CLEANUP
  deriving DecidableEq, Repr

/-- `GameState` from game_state.py.  The fields after `attack_deck` are
referenced by rules.py but absent from the copy of game_state.py in this
tree; they are modelled from the spec.  Modelled from the spec:
`ammo_max`, `weapon_jammed`, `serious_wounds`, `self_destruct_armed`,
`destruction_timer`, `game_over`, `win`, `event_deck_cards`, `bag`
(spec §3 data model). -/
structure GameState where
  turn : Int := 0
  phase : Phase := .PLAYER
  seed : Option Int := none
  board : Board := defaultBoard
  player_room : RoomId := "A"
  oxygen : Int := 5
  health : Int := 5
  ammo : Int := 3
  actions_in_turn : Int := 0
  life_support_active : Bool := true
  fires : List RoomId := []
  noise : List (Edge × Int) := []
  room_noise : List (RoomId × Int) := []
  doors : List Edge := []
  round : Int := 1
  intruders : List (RoomId × Int) := []
  event_deck : Int := 10
  bag_dev_count : Int := 0
  intruder_burn_last : Int := 0
  attack_deck : Int := 10
  ammo_max : Int := 3
  weapon_jammed : Bool := false
  serious_wounds : Int := 0
  self_destruct_armed : Bool := false
  destruction_timer : Int := 0
  game_over : Bool := false
  win : Bool := false
  event_deck_cards : List String := []
  bag : List (String × Int) := []
  deriving DecidableEq, Repr

-- ---------------------------------------------------------------------------
-- actions.py
-- ---------------------------------------------------------------------------

/-- `ActionType` from actions.py.  Modelled from the spec: the variants
`BURST`, `MELEE`, `ESCAPE` are used by rules.py but absent from the copy of
actions.py in this tree (spec §3 closed action set). -/
inductive ActionType where
  | NOOP | PASS | MOVE | MOVE_CAUTIOUS | OPEN_DOOR | CLOSE_DOOR
  | SHOOT | BURST | MELEE | USE_ROOM | ESCAPE | END_PLAYER_PHASE | NEXT_PHASE
  deriving DecidableEq, Repr

/-- Noise-target values used by `_noise_roll`. -/
inductive NoiseTarget where
  | corridor | room
  deriving DecidableEq, Repr

/-- The typed rendering of the Python `Action.params` key-value bag: the
keys rules.py reads (`to`, `noise_edge`, `noise_roll`), each optional. -/
structure Params where
  «to» : Option RoomId := none
  noise_edge : Option (RoomId × RoomId) := none
  noise_roll : Option NoiseTarget := none
  deriving DecidableEq, Repr

/-- `Action` from actions.py. -/
structure Action where
  type : ActionType
  params : Params := {}
  deriving DecidableEq, Repr

/-- Attack outcomes from rules.py. -/
inductive AttackOutcome where
  | miss | hit | crit | jam
  deriving DecidableEq, Repr

/-- `_attack_outcome` from rules.py (the source checks deck exhaustion
before the divisibility tests). -/
def attackOutcome (attack_deck : Int) : AttackOutcome :=
  if attack_deck ≤ 0 then .miss
  else if attack_deck % 13 = 0 then .jam
  else if attack_deck % 7 = 0 then .crit
  else .hit

/-- `_noise_roll` from rules.py: the override in `action.params` if valid,
else `corridor`.  (Ill-typed overrides, which Python ignores, are absorbed
by the typed `Params`.) -/
def noiseRoll (a : Action) : NoiseTarget :=
  a.params.noise_roll.getD .corridor

/-- `_last_bullet_trigger` from rules.py. -/
def lastBulletTrigger (v : Int) : Bool :=
  if v > 0 then v % 5 = 0 else false

/-- `_neighbors_open` from rules.py: board neighbours whose edge is not
blocked by a door. -/
def neighborsOpen (s : GameState) (room : RoomId) : List RoomId :=
  (s.board.neighbors room).filter (fun n => decide (normEdge room n ∉ s.doors))

-- ---------------------------------------------------------------------------
-- rules.py : Rules.apply — working state
-- ---------------------------------------------------------------------------

/-- The local variables threaded through the body of `Rules.apply`
(`new_state`, `new_noise`, `new_room_noise`, `actions_in_turn`, `phase`,
`oxygen`, `health`, `doors`). -/
structure Work where
  st : GameState
  nn : List (Edge × Int)
  nrn : List (RoomId × Int)
  ait : Int
  ph : Phase
  oxy : Int
  hp : Int
  drs : List Edge
  deriving Repr

/-- Initialisation of the local variables at the top of `Rules.apply`. -/
def initW (s : GameState) : Work :=
  { st := s, nn := s.noise, nrn := s.room_noise, ait := s.actions_in_turn
    ph := s.phase, oxy := s.oxygen, hp := s.health, drs := s.doors }

/-- `new_noise[edge] = new_noise.get(edge, 0) + 1`. -/
def bump {K : Type} [DecidableEq K] (m : List (K × Int)) (k : K) : List (K × Int) :=
  setKey m k (lookupD m k 0 + 1)

/-- The encounter-spawn test of the MOVE branch: destination had
pre-existing room noise ≥ 1, or some corridor incident to it carries
noise ≥ 1 (both read from the maps as they were before the move). -/
def spawnFlag (s : GameState) (to_room : RoomId) : Bool :=
  decide (1 ≤ lookupD s.room_noise to_room 0) ||
    s.noise.any (fun e =>
      (e.1.1 == to_room || e.1.2 == to_room) && decide (1 ≤ lookupD s.noise e.1 0))

/-- The noise placement performed by a MOVE / MOVE_CAUTIOUS: on a
corridor roll, MOVE bumps the traversed edge while MOVE_CAUTIOUS bumps a
validated caller-nominated edge (or nothing); on a room roll, the
destination room's counter is bumped. -/
def movePlacement (s : GameState) (a : Action) (w : Work)
    (to_room : RoomId) (move_edge : Edge) :
    (List (Edge × Int)) × (List (RoomId × Int)) :=
  match noiseRoll a with
  | .corridor =>
    if a.type = ActionType.MOVE then (bump w.nn move_edge, w.nrn)
    else
      -- MOVE_CAUTIOUS: caller-nominated corridor, validated
      match a.params.noise_edge with
      | some (x, y) =>
        let e := normEdge x y
        if e ∈ s.board.edges ∧ e ∉ s.doors then (bump w.nn e, w.nrn)
        else (w.nn, w.nrn)
      | none => (w.nn, w.nrn)
  | .room => (w.nn, bump w.nrn to_room)

/-- The MOVE / MOVE_CAUTIOUS branch of `Rules.apply`; `none` models the
early `return state.next(turn=state.turn + 1)` on illegal input. -/
def moveBranch (s : GameState) (a : Action) (w : Work) : Option Work :=
  match a.params.to with
  | none => none
  | some to_room =>
    if to_room ∈ s.board.neighbors s.player_room then
      let move_edge := normEdge s.player_room to_room
      if move_edge ∈ s.doors then none
      else
        -- move the player, count the action
        let st := { w.st with player_room := to_room }
        let ait := w.ait + 1
        -- noise placement based on the noise roll
        let pl := movePlacement s a w to_room move_edge
        -- encounter spawn check against the pre-move noise maps
        if ¬ hasKey st.intruders to_room ∧ spawnFlag s to_room then
          some { w with
            st := { st with intruders := setKey st.intruders to_room 1 }
            nn := pl.1.filter (fun e => ¬ (e.1.1 = to_room ∨ e.1.2 = to_room))
            nrn := eraseKey pl.2 to_room
            ait := ait }
        else
          some { w with st := st, nn := pl.1, nrn := pl.2, ait := ait }
    else none

/-- The OPEN_DOOR / CLOSE_DOOR branch of `Rules.apply`. -/
def doorBranch (s : GameState) (a : Action) (w : Work) : Option Work :=
  match a.params.to with
  | none => none
  | some to_room =>
    if to_room ∈ s.board.neighbors s.player_room then
      let edge := normEdge s.player_room to_room
      if a.type = .OPEN_DOOR then
        if edge ∈ w.drs then
          some { w with drs := w.drs.filter (fun e => e ≠ edge), ait := w.ait + 1 }
        else some w
      else
        if edge ∉ w.drs then
          some { w with drs := w.drs ++ [edge], ait := w.ait + 1 }
        else some w
    else none

/-- Damage application shared by the SHOOT / BURST / MELEE branches:
subtract `dmg` from the co-located intruder, removing it at HP ≤ 0. -/
def damageIntruder (m : List (RoomId × Int)) (room : RoomId) (dmg : Int) :
    List (RoomId × Int) :=
  let hp := lookupD m room 0 - dmg
  if hp ≤ 0 then eraseKey m room else setKey m room hp

/-- The SHOOT branch of `Rules.apply`. -/
def shootBranch (s : GameState) (w : Work) : Work :=
  if hasKey s.intruders s.player_room ∧ s.ammo > 0 ∧ s.weapon_jammed = false then
    let attack_deck_val := s.attack_deck
    let outcome := attackOutcome attack_deck_val
    let last_bullet := lastBulletTrigger attack_deck_val
    let new_attack_deck := max (attack_deck_val - 1) 0
    let ammo_spent : Int := if last_bullet then 1 else 0
    let ammo := max (s.ammo - ammo_spent) 0
    let weapon_jammed := if outcome = .jam then true else s.weapon_jammed
    let new_intruders :=
      if outcome = .hit then damageIntruder s.intruders s.player_room 1
      else if outcome = .crit then damageIntruder s.intruders s.player_room 2
      else s.intruders
    { w with
      st := { w.st with intruders := new_intruders, ammo := ammo
                        attack_deck := new_attack_deck
                        weapon_jammed := weapon_jammed }
      ait := w.ait + 1 }
  else w

/-- The BURST branch of `Rules.apply` (always spends exactly 1 ammo). -/
def burstBranch (s : GameState) (w : Work) : Work :=
  if hasKey s.intruders s.player_room ∧ s.ammo > 0 ∧ s.weapon_jammed = false then
    let attack_deck_val := s.attack_deck
    let outcome := attackOutcome attack_deck_val
    let new_attack_deck := max (attack_deck_val - 1) 0
    let ammo := s.ammo - 1
    let weapon_jammed := if outcome = .jam then true else s.weapon_jammed
    let new_intruders :=
      if outcome = .hit then damageIntruder s.intruders s.player_room 1
      else if outcome = .crit then damageIntruder s.intruders s.player_room 2
      else s.intruders
    { w with
      st := { w.st with intruders := new_intruders, ammo := ammo
                        attack_deck := new_attack_deck
                        weapon_jammed := weapon_jammed }
      ait := w.ait + 1 }
  else w

/-- The MELEE branch of `Rules.apply`. -/
def meleeBranch (s : GameState) (w : Work) : Work :=
  if hasKey s.intruders s.player_room then
    let new_intruders := damageIntruder s.intruders s.player_room 1
    let hp := if w.hp > 0 then w.hp - 1 else w.hp
    let st :=
      if (hp = 3 ∨ hp = 1) ∧ w.st.serious_wounds < 3 then
        { w.st with serious_wounds := w.st.serious_wounds + 1 }
      else w.st
    { w with st := { st with intruders := new_intruders }, hp := hp, ait := w.ait + 1 }
  else w

/-- The USE_ROOM branch of `Rules.apply`, dispatching on the current
room's type. -/
def useRoomBranch (s : GameState) (w : Work) : Work :=
  match lookup? s.board.room_types s.player_room with
  | some "CONTROL" =>
    { w with st := { w.st with life_support_active := !s.life_support_active }
             ait := w.ait + 1 }
  | some "ARMORY" =>
    let st := if w.st.ammo < w.st.ammo_max then { w.st with ammo := w.st.ammo_max } else w.st
    let st := if st.weapon_jammed then { st with weapon_jammed := false } else st
    { w with st := st, ait := w.ait + 1 }
  | some "SURGERY" =>
    let hp := if w.hp < 5 then w.hp + 1 else w.hp
    if w.st.serious_wounds > 0 ∨ hp ≠ w.st.health then
      let st :=
        if w.st.serious_wounds > 0 then
          { w.st with serious_wounds := w.st.serious_wounds - 1 }
        else w.st
      let st := if hp ≠ w.st.health then { st with health := hp } else st
      { w with st := st, hp := hp, ait := w.ait + 1 }
    else { w with hp := hp }
  | some "ENGINE" =>
    if w.st.self_destruct_armed = false then
      { w with st := { w.st with self_destruct_armed := true, destruction_timer := 3 }
               ait := w.ait + 1 }
    else w
  | some "FIRE_CONTROL" =>
    let st :=
      if s.player_room ∈ w.st.fires then
        { w.st with fires := w.st.fires.filter (fun r => r ≠ s.player_room) }
      else w.st
    { w with st := st, ait := w.ait + 1 }
  | _ => w

/-- The per-action-type dispatch at the top of `Rules.apply`; `none`
models the early NOOP-equivalent returns of the MOVE and door branches. -/
def branchStep (s : GameState) (a : Action) : Option Work :=
  let w := initW s
  match a.type with
  | .MOVE => moveBranch s a w
  | .MOVE_CAUTIOUS => moveBranch s a w
  | .OPEN_DOOR => doorBranch s a w
  | .CLOSE_DOOR => doorBranch s a w
  | .SHOOT => some (shootBranch s w)
  | .BURST => some (burstBranch s w)
  | .MELEE => some (meleeBranch s w)
  | .USE_ROOM => some (useRoomBranch s w)
  | .ESCAPE =>
    some { w with st := { w.st with game_over := true, win := true }, ait := w.ait + 1 }
  | _ => some w

/-- The end-of-turn block of `Rules.apply`: on PASS, or once two actions
have been taken, apply the oxygen and fire hazards and reset the
per-turn action counter. -/
def endTurnStep (a : Action) (w : Work) : Work :=
  if a.type = ActionType.PASS ∨ w.ait ≥ 2 then
    let oxy := if w.st.life_support_active = false ∧ w.oxy > 0 then w.oxy - 1 else w.oxy
    let hp := if w.st.player_room ∈ w.st.fires ∧ w.hp > 0 then w.hp - 1 else w.hp
    { w with oxy := oxy, hp := hp, ait := 0 }
  else w

/-- The ENEMY-phase effects shared by END_PLAYER_PHASE and NEXT_PHASE:
record how many intruders stand in burning rooms, and damage the player
if an intruder shares the room. -/
def enemyStep (w : Work) : Work :=
  let burn_total : Int :=
    (((dedup (w.st.intruders.map Prod.fst)).filter (fun r => r ∈ w.st.fires)).length : Int)
  let hp :=
    if hasKey w.st.intruders w.st.player_room ∧ w.hp > 0 then w.hp - 1 else w.hp
  { w with hp := hp, st := { w.st with intruder_burn_last := burn_total } }

/-- One round of the BFS loop over open edges used by the EVENT phase
(`fuel` bounds the iteration count; it is chosen large enough that the
loop always drains its queue, since each room is enqueued at most once). -/
def bfsLoop (s : GameState) : Nat → List RoomId → List (RoomId × Nat) → List (RoomId × Nat)
  | 0, _, dist => dist
  | _, [], dist => dist
  | Nat.succ fuel, cur :: rest, dist =>
    let step := (neighborsOpen s cur).foldl
      (fun (acc : List (RoomId × Nat) × List RoomId) nb =>
        if hasKey acc.1 nb then acc
        else (setKey acc.1 nb (lookupD acc.1 cur 0 + 1), acc.2 ++ [nb]))
      (dist, [])
    bfsLoop s fuel (rest ++ step.2) step.1

/-- BFS shortest-path distances from the player's room over open edges. -/
def bfsDist (s : GameState) : List (RoomId × Nat) :=
  bfsLoop s (s.board.rooms.length + 2 * s.board.edges.length + 1)
    [s.player_room] [(s.player_room, 0)]

/-- One intruder's destination in the EVENT phase: the neighbour that
strictly improves its BFS distance to the player (scanning neighbours in
order, keeping the latest improvement), or its own room. -/
def intruderDest (s : GameState) (dist : List (RoomId × Nat)) (room : RoomId)
    (d0 : Nat) : RoomId :=
  let pick := (neighborsOpen s room).foldl
    (fun (best : Option RoomId × Nat) nb =>
      if lookupD dist nb (best.2 + 1) < best.2 then (some nb, lookupD dist nb 0) else best)
    (none, d0)
  pick.1.getD room

/-- The intruder-movement fold of the EVENT phase: each intruder steps
one room closer to the player (staying put if it has no path), and
intruders converging on one room merge keeping the maximum HP. -/
def moveIntruders (s : GameState) (dist : List (RoomId × Nat)) : List (RoomId × Int) :=
  s.intruders.foldl
    (fun moved p =>
      match lookup? dist p.1 with
      | none => setKey moved p.1 (max (lookupD moved p.1 0) p.2)
      | some d0 =>
        let dest := intruderDest s dist p.1 d0
        setKey moved dest (max (lookupD moved dest 0) p.2))
    []

/-- The EVENT-phase effects of NEXT_PHASE: intruder movement toward the
player, damage on arrival, then event-card processing (or the
no-cards fallback).  In the SPAWN_FROM_BAG branch the source indexes
`sorted(...)[0]`, which raises IndexError when the bag is non-empty but
every count is ≤ 0; engine-produced bags always hold counts ≥ 1, and that
unreachable corner is modelled as having no further effect. -/
def eventStep (a : Action) (w : Work) : Work :=
  let dist := bfsDist w.st
  let moved := moveIntruders w.st dist
  let hp := if hasKey moved w.st.player_room ∧ w.hp > 0 then w.hp - 1 else w.hp
  let st := { w.st with intruders := moved }
  match st.event_deck_cards with
  | card :: remaining =>
    let st := { st with event_deck := (remaining.length : Int)
                        event_deck_cards := remaining }
    if card = "NOISE_CORRIDOR" then
      match sortStr (neighborsOpen st st.player_room) with
      | [] => { w with st := st, hp := hp }
      | n :: _ =>
        { w with st := st, hp := hp, nn := bump w.nn (normEdge st.player_room n) }
    else if card = "NOISE_ROOM" then
      { w with st := st, hp := hp, nrn := bump w.nrn st.player_room }
    else if card = "BAG_DEV" then
      let st := { st with bag_dev_count := st.bag_dev_count + 1 }
      let st := { st with bag := bump st.bag "ADULT" }
      { w with st := st, hp := hp }
    else if card = "SPAWN_FROM_BAG" then
      if st.bag ≠ [] then
        match sortStr ((st.bag.filter (fun p => p.2 > 0)).map Prod.fst) with
        | [] => { w with st := st, hp := hp }
        | token :: _ =>
          let v := lookupD st.bag token 0 - 1
          let st := { st with
            bag := if v ≤ 0 then eraseKey st.bag token else setKey st.bag token v }
          if token = "ADULT" ∧ ¬ hasKey st.intruders st.player_room then
            { w with st := { st with intruders := setKey st.intruders st.player_room 1 }
                     hp := hp }
          else { w with st := st, hp := hp }
      else { w with st := st, hp := hp }
    else if card = "OXYGEN_LEAK" then
      { w with st := { st with life_support_active := false }, hp := hp }
    else if card = "FIRE_ROOM" then
      let st := { st with
        fires := if st.player_room ∈ st.fires then st.fires
                 else st.fires ++ [st.player_room] }
      { w with st := st, hp := hp }
    else { w with st := st, hp := hp }
  | [] =>
    let st := if st.event_deck > 0 then { st with event_deck := st.event_deck - 1 } else st
    match noiseRoll a with
    | .corridor =>
      match sortStr (neighborsOpen st st.player_room) with
      | [] => { w with st := st, hp := hp }
      | n :: _ =>
        { w with st := st, hp := hp, nn := bump w.nn (normEdge st.player_room n) }
    | .room => { w with st := st, hp := hp, nrn := bump w.nrn st.player_room }

/-- The CLEANUP-phase effects of NEXT_PHASE: advance the round, run the
self-destruct countdown, and flag the loss when the armed timer hits 0. -/
def cleanupStep (w : Work) : Work :=
  let timer :=
    if w.st.self_destruct_armed ∧ w.st.destruction_timer > 0 then
      w.st.destruction_timer - 1
    else w.st.destruction_timer
  let st : GameState := { w.st with round := w.st.round + 1, destruction_timer := timer }
  if st.self_destruct_armed ∧ st.destruction_timer = 0 ∧ st.game_over = false then
    { w with st := { st with game_over := true, win := false } }
  else { w with st := st }

/-- `_cycle` from `Rules.apply`: the phase successor, sending CLEANUP
(and the never-cycled SETUP) back to PLAYER. -/
def cyclePhase : Phase → Phase
  | .PLAYER => .ENEMY
  | .ENEMY => .EVENT
  | .EVENT => .CLEANUP
  | _ => .PLAYER

/-- The final snapshot built at the bottom of `Rules.apply`. -/
def finalize (s : GameState) (w : Work) : GameState :=
  { w.st with noise := w.nn, room_noise := w.nrn, actions_in_turn := w.ait
              oxygen := w.oxy, health := w.hp, turn := s.turn + 1
              phase := w.ph, doors := w.drs }

/-- `Rules.apply` from rules.py: the single state-transition entry point. -/
def Rules.apply (s : GameState) (a : Action) : GameState :=
  if a.type = ActionType.NOOP then { s with turn := s.turn + 1 }
  else
    match branchStep s a with
    | none => { s with turn := s.turn + 1 }
    | some w0 =>
      let w1 := endTurnStep a w0
      if a.type = ActionType.END_PLAYER_PHASE then
        if s.phase ≠ Phase.PLAYER ∨ s.actions_in_turn ≠ 0 then
          { s with turn := s.turn + 1 }
        else finalize s (enemyStep { w1 with ph := Phase.ENEMY })
      else if a.type = ActionType.NEXT_PHASE then
        if s.phase = Phase.PLAYER then { s with turn := s.turn + 1 }
        else
          let p := cyclePhase s.phase
          let w2 := { w1 with ph := p }
          let w3 :=
            if p = Phase.ENEMY then enemyStep w2
            else if p = Phase.EVENT then eventStep a w2
            else if p = Phase.CLEANUP then cleanupStep w2
            else w2
          finalize s w3
      else finalize s w1

/-- `Rules.legal_actions` from rules.py. -/
def Rules.legal_actions (s : GameState) : List Action :=
  let base :=
    if s.phase = Phase.PLAYER then
      ((neighborsOpen s s.player_room).flatMap
        (fun n => [⟨.MOVE, { «to» := some n }⟩, ⟨.MOVE_CAUTIOUS, { «to» := some n }⟩])) ++
      ((s.board.neighbors s.player_room).map (fun n =>
        if normEdge s.player_room n ∈ s.doors then
          Action.mk .OPEN_DOOR { «to» := some n }
        else Action.mk .CLOSE_DOOR { «to» := some n })) ++
      (if hasKey s.intruders s.player_room then
        ⟨.MELEE, {}⟩ ::
          (if s.ammo > 0 ∧ s.weapon_jammed = false then
            [⟨.SHOOT, {}⟩, ⟨.BURST, {}⟩]
          else [])
      else []) ++
      (match lookup? s.board.room_types s.player_room with
       | some t =>
         (if t = "CONTROL" ∨ t = "ARMORY" ∨ t = "SURGERY" ∨ t = "ENGINE" ∨
             t = "FIRE_CONTROL" then [⟨.USE_ROOM, {}⟩] else []) ++
         (if t = "ENGINE" then [⟨.ESCAPE, {}⟩] else [])
       | none => []) ++
      [⟨.PASS, {}⟩] ++
      (if s.actions_in_turn = 0 then [⟨.END_PLAYER_PHASE, {}⟩] else [])
    else [⟨.NEXT_PHASE, {}⟩]
  base ++ [⟨.NOOP, {}⟩]

-- ---------------------------------------------------------------------------
-- named actions and concrete states used by witnesses and counterexamples
-- ---------------------------------------------------------------------------

/-- Parameterless NOOP action. -/
def noopA : Action := ⟨.NOOP, {}⟩
/-- Parameterless PASS action. -/
def passA : Action := ⟨.PASS, {}⟩
/-- `MOVE` with destination `r`. -/
def moveTo (r : RoomId) : Action := ⟨.MOVE, { «to» := some r }⟩
/-- Parameterless SHOOT action. -/
def shootA : Action := ⟨.SHOOT, {}⟩
/-- Parameterless BURST action. -/
def burstA : Action := ⟨.BURST, {}⟩
/-- Parameterless USE_ROOM action. -/
def useRoomA : Action := ⟨.USE_ROOM, {}⟩
/-- Parameterless END_PLAYER_PHASE action. -/
def eppA : Action := ⟨.END_PLAYER_PHASE, {}⟩
/-- Parameterless NEXT_PHASE action. -/
def nextA : Action := ⟨.NEXT_PHASE, {}⟩

/-- The default `GameState` of game_state.py (player at A on the A-B-C board). -/
def sDef : GameState := {}

/-- Default state after two player actions this turn. -/
def cs1 : GameState := { actions_in_turn := 2 }

/-- Co-located intruder, ammo, unjammed weapon, exhausted attack deck. -/
def cs3 : GameState := { intruders := [("A", 2)], ammo := 3, attack_deck := 0 }

/-- Co-located intruder, ammo, unjammed weapon, deck at 0 (a multiple of 5). -/
def cs4 : GameState := { intruders := [("A", 1)], ammo := 3, attack_deck := 0 }

/-- Room B carries room noise, so moving into B triggers an encounter. -/
def cs5 : GameState := { room_noise := [("B", 1)] }

/-- Default state with the door on edge (A,B) closed. -/
def csDoor : GameState := { doors := [("A", "B")] }

/-- Intruder with 2 HP at A, ammo, deck at 14 (a crit per the deck table). -/
def cs3w : GameState := { intruders := [("A", 2)], ammo := 3, attack_deck := 14 }

/-- Intruder with 3 HP at A, ammo, deck at 10 (positive multiple of 5). -/
def cs4w : GameState := { intruders := [("A", 3)], ammo := 3, attack_deck := 10 }

/-- Player standing in an ENGINE room, self-destruct not armed. -/
def csEng : GameState :=
  { board := { defaultBoard with room_types := [("A", "ENGINE")] } }

/-- EVENT phase with the self-destruct armed and one tick left. -/
def csClean : GameState :=
  { phase := .EVENT, self_destruct_armed := true, destruction_timer := 1 }

/-- ENEMY phase with an intruder two rooms from the player. -/
def csC10 : GameState := { phase := .ENEMY, intruders := [("C", 2)] }

/-- Modelled from the claim/spec wording for SHOOT resolution (`jam` if
divisible by 13, else `crit` if divisible by 7, else `miss` if the deck is
exhausted, else `hit`): the order the spec sentence lists the tests in.
Stated only to compare against `attackOutcome`, which the source defines
with the exhaustion test first. -/
def specAttackOutcome (attack_deck : Int) : AttackOutcome :=
  if attack_deck % 13 = 0 then .jam
  else if attack_deck % 7 = 0 then .crit
  else if attack_deck ≤ 0 then .miss
  else .hit

-- ---------------------------------------------------------------------------
-- basic lemmas about the dictionary helpers
-- ---------------------------------------------------------------------------

section MapLemmas

variable {K V : Type} [DecidableEq K]

theorem mem_setKey {m : List (K × V)} {k : K} {v : V} {q : K × V}
    (h : q ∈ setKey m k v) : q ∈ m ∨ q = (k, v) := by
  induction m with
  | nil => simpa [setKey] using h
  | cons p rest ih =>
    by_cases hp : p.1 = k
    · simp only [setKey, if_pos hp] at h
      rcases List.mem_cons.mp h with h | h
      · right; exact h
      · left; exact List.mem_cons_of_mem _ h
    · simp only [setKey, if_neg hp] at h
      rcases List.mem_cons.mp h with h | h
      · left; exact h ▸ List.mem_cons_self _ _
      · rcases ih h with h' | h'
        · left; exact List.mem_cons_of_mem _ h'
        · right; exact h'

theorem lookup?_setKey_self (m : List (K × V)) (k : K) (v : V) :
    lookup? (setKey m k v) k = some v := by
  induction m with
  | nil => simp [setKey, lookup?]
  | cons p rest ih =>
    by_cases hp : p.1 = k
    · simp [setKey, if_pos hp, lookup?]
    · simp only [setKey, if_neg hp]
      simpa [lookup?, List.find?, hp] using ih

theorem mem_eraseKey {m : List (K × V)} {k : K} {q : K × V}
    (h : q ∈ eraseKey m k) : q ∈ m := by
  exact (List.mem_filter.mp h).1

theorem lookup?_eraseKey_self (m : List (K × V)) (k : K) :
    lookup? (eraseKey m k) k = none := by
  induction m with
  | nil => simp [eraseKey, lookup?]
  | cons p rest ih =>
    by_cases hp : p.1 = k
    · have he : eraseKey (p :: rest) k = eraseKey rest k := by
        simp [eraseKey, List.filter_cons, hp]
      rw [he]; exact ih
    · have he : eraseKey (p :: rest) k = p :: eraseKey rest k := by
        simp [eraseKey, List.filter_cons, hp]
      rw [he]
      unfold lookup? at ih ⊢
      rw [List.find?_cons_of_neg _ (by simpa using hp)]
      exact ih

theorem lookupD_bump (m : List (K × Int)) (k : K) :
    lookupD (bump m k) k 0 = lookupD m k 0 + 1 := by
  simp [bump, lookupD, lookup?_setKey_self]

/-- Values surviving `setKey` are old values or the inserted one. -/
theorem forall_setKey {P : V → Prop} {m : List (K × V)} {k : K} {v : V}
    (hm : ∀ p ∈ m, P p.2) (hv : P v) :
    ∀ p ∈ setKey m k v, P p.2 := by
  intro p hp
  rcases mem_setKey hp with h | h
  · exact hm p h
  · rw [h]; exact hv

theorem forall_eraseKey {P : V → Prop} {m : List (K × V)} {k : K}
    (hm : ∀ p ∈ m, P p.2) :
    ∀ p ∈ eraseKey m k, P p.2 :=
  fun p hp => hm p (mem_eraseKey hp)

end MapLemmas

/-- `damageIntruder` keeps every stored HP ≥ 1. -/
theorem forall_damageIntruder {m : List (RoomId × Int)} {room : RoomId} {d : Int}
    (hm : ∀ p ∈ m, 1 ≤ p.2) :
    ∀ p ∈ damageIntruder m room d, 1 ≤ p.2 := by
  simp only [damageIntruder]
  split
  · exact forall_eraseKey hm
  · next h => exact forall_setKey hm (by omega)

/-- `moveIntruders` keeps every stored HP ≥ 1. -/
theorem forall_moveIntruders {s : GameState} {dist : List (RoomId × Nat)}
    (hm : ∀ p ∈ s.intruders, 1 ≤ p.2) :
    ∀ p ∈ moveIntruders s dist, 1 ≤ p.2 := by
  unfold moveIntruders
  have main : ∀ (l acc : List (RoomId × Int)),
      (∀ p ∈ l, 1 ≤ p.2) → (∀ p ∈ acc, 1 ≤ p.2) →
      ∀ p ∈ l.foldl
        (fun moved p =>
          match lookup? dist p.1 with
          | none => setKey moved p.1 (max (lookupD moved p.1 0) p.2)
          | some d0 =>
            let dest := intruderDest s dist p.1 d0
            setKey moved dest (max (lookupD moved dest 0) p.2)) acc, 1 ≤ p.2 := by
    intro l
    induction l with
    | nil => intro acc _ hacc; simpa using hacc
    | cons q rest ih =>
      intro acc hl hacc
      have hq : 1 ≤ q.2 := hl q (List.mem_cons_self _ _)
      have hrest : ∀ p ∈ rest, 1 ≤ p.2 := fun p hp => hl p (List.mem_cons_of_mem _ hp)
      simp only [List.foldl_cons]
      apply ih _ hrest
      cases hfind : lookup? dist q.1 with
      | none =>
        simp only [hfind]
        exact forall_setKey hacc (le_trans hq (le_max_right _ _))
      | some d0 =>
        simp only [hfind]
        exact forall_setKey hacc (le_trans hq (le_max_right _ _))
  exact main _ _ hm (by simp)

-- ---------------------------------------------------------------------------
-- projection lemmas for the transition pipeline
-- ---------------------------------------------------------------------------

section StageLemmas

variable (s : GameState) (a : Action) (w : Work)

@[simp] theorem endTurnStep_st : (endTurnStep a w).st = w.st := by
  unfold endTurnStep; split <;> rfl

@[simp] theorem endTurnStep_nn : (endTurnStep a w).nn = w.nn := by
  unfold endTurnStep; split <;> rfl

@[simp] theorem endTurnStep_nrn : (endTurnStep a w).nrn = w.nrn := by
  unfold endTurnStep; split <;> rfl

@[simp] theorem endTurnStep_ph : (endTurnStep a w).ph = w.ph := by
  unfold endTurnStep; split <;> rfl

@[simp] theorem endTurnStep_drs : (endTurnStep a w).drs = w.drs := by
  unfold endTurnStep; split <;> rfl

@[simp] theorem finalize_turn : (finalize s w).turn = s.turn + 1 := rfl
@[simp] theorem finalize_phase : (finalize s w).phase = w.ph := rfl
@[simp] theorem finalize_noise : (finalize s w).noise = w.nn := rfl
@[simp] theorem finalize_room_noise : (finalize s w).room_noise = w.nrn := rfl
@[simp] theorem finalize_actions_in_turn : (finalize s w).actions_in_turn = w.ait := rfl
@[simp] theorem finalize_oxygen : (finalize s w).oxygen = w.oxy := rfl
@[simp] theorem finalize_health : (finalize s w).health = w.hp := rfl
@[simp] theorem finalize_doors : (finalize s w).doors = w.drs := rfl
@[simp] theorem finalize_player_room : (finalize s w).player_room = w.st.player_room := rfl
@[simp] theorem finalize_intruders : (finalize s w).intruders = w.st.intruders := rfl
@[simp] theorem finalize_ammo : (finalize s w).ammo = w.st.ammo := rfl
@[simp] theorem finalize_ammo_max : (finalize s w).ammo_max = w.st.ammo_max := rfl
@[simp] theorem finalize_attack_deck : (finalize s w).attack_deck = w.st.attack_deck := rfl
@[simp] theorem finalize_weapon_jammed :
    (finalize s w).weapon_jammed = w.st.weapon_jammed := rfl
@[simp] theorem finalize_round : (finalize s w).round = w.st.round := rfl
@[simp] theorem finalize_self_destruct_armed :
    (finalize s w).self_destruct_armed = w.st.self_destruct_armed := rfl
@[simp] theorem finalize_destruction_timer :
    (finalize s w).destruction_timer = w.st.destruction_timer := rfl
@[simp] theorem finalize_game_over : (finalize s w).game_over = w.st.game_over := rfl
@[simp] theorem finalize_win : (finalize s w).win = w.st.win := rfl

@[simp] theorem initW_st : (initW s).st = s := rfl
@[simp] theorem initW_ait : (initW s).ait = s.actions_in_turn := rfl
@[simp] theorem initW_nn : (initW s).nn = s.noise := rfl
@[simp] theorem initW_nrn : (initW s).nrn = s.room_noise := rfl
@[simp] theorem initW_ph : (initW s).ph = s.phase := rfl
@[simp] theorem initW_oxy : (initW s).oxy = s.oxygen := rfl
@[simp] theorem initW_hp : (initW s).hp = s.health := rfl
@[simp] theorem initW_drs : (initW s).drs = s.doors := rfl

/-- Unfolding `Rules.apply` for an ordinary action (not NOOP and not one
of the two phase-control actions) whose branch produced a working state. -/
theorem apply_eq_finalize (hn : a.type ≠ ActionType.NOOP)
    (he : a.type ≠ ActionType.END_PLAYER_PHASE)
    (hx : a.type ≠ ActionType.NEXT_PHASE)
    (hb : branchStep s a = some w) :
    Rules.apply s a = finalize s (endTurnStep a w) := by
  simp [Rules.apply, hn, he, hx, hb]

end StageLemmas

-- ---------------------------------------------------------------------------
-- C6 : legal_actions is total, ends in NOOP, and collapses off-phase
-- ---------------------------------------------------------------------------

/-- C6: `legal_actions` is a total function (never raises), always returns a
non-empty list whose last element is the NOOP action — even for an empty
board or dead-end state — and in any non-PLAYER phase returns exactly
`[NEXT_PHASE, NOOP]`. -/
theorem C6_legal_actions_total_noop_last (s : GameState) :
    Rules.legal_actions s ≠ [] ∧
    (Rules.legal_actions s).getLast? = some noopA ∧
    (s.phase ≠ Phase.PLAYER →
      Rules.legal_actions s = [nextA, noopA]) := by
  refine ⟨?_, ?_, ?_⟩
  · simp [Rules.legal_actions]
  · simp [Rules.legal_actions, noopA]
  · intro h
    simp [Rules.legal_actions, if_neg h, nextA, noopA]

/-- Witness for C6 at a concrete non-PLAYER state and at the default state. -/
theorem C6_witness :
    Rules.legal_actions { sDef with phase := Phase.ENEMY } = [nextA, noopA] ∧
    (Rules.legal_actions sDef).getLast? = some noopA :=
  ⟨(C6_legal_actions_total_noop_last _).2.2 (by decide),
   (C6_legal_actions_total_noop_last _).2.1⟩

-- ---------------------------------------------------------------------------
-- C1 : illegal input is NOOP-equivalent
-- ---------------------------------------------------------------------------

/-- C1 (amended): a NOOP; a MOVE/MOVE_CAUTIOUS with a missing destination,
a non-neighbour destination, or a door-blocked edge; an illegal SHOOT
*in a state with fewer than two actions already taken this turn*; a
NEXT_PHASE during PLAYER; or a reentrant END_PLAYER_PHASE — all return the
input state with only `turn` incremented.  (Without the `actions_in_turn
< 2` proviso the SHOOT case is false: an illegal SHOOT still runs the
end-of-turn block, see `C1_counterexample`.) -/
theorem C1_illegal_action_noop (s : GameState) (a : Action)
    (h : a.type = ActionType.NOOP
      ∨ ((a.type = ActionType.MOVE ∨ a.type = ActionType.MOVE_CAUTIOUS) ∧
          (a.params.to = none ∨
            ∃ r, a.params.to = some r ∧
              (r ∉ s.board.neighbors s.player_room ∨
               normEdge s.player_room r ∈ s.doors)))
      ∨ (a.type = ActionType.SHOOT ∧ s.actions_in_turn < 2 ∧
          ¬ (hasKey s.intruders s.player_room = true ∧ s.ammo > 0 ∧
             s.weapon_jammed = false))
      ∨ (a.type = ActionType.NEXT_PHASE ∧ s.phase = Phase.PLAYER)
      ∨ (a.type = ActionType.END_PLAYER_PHASE ∧
          (s.phase ≠ Phase.PLAYER ∨ s.actions_in_turn ≠ 0))) :
    Rules.apply s a = { s with turn := s.turn + 1 } := by
  rcases h with h | ⟨hty, hbad⟩ | ⟨hty, hlt, hng⟩ | ⟨hty, hph⟩ | ⟨hty, hbad⟩
  · -- NOOP
    simp [Rules.apply, h]
  · -- illegal MOVE / MOVE_CAUTIOUS
    have hb : branchStep s a = none := by
      have hmv : moveBranch s a (initW s) = none := by
        rcases hbad with hto | ⟨r, hr, hbad2⟩
        · simp [moveBranch, hto]
        · rcases hbad2 with h1 | h2
          · simp [moveBranch, hr, h1]
          · by_cases hrn : r ∈ s.board.neighbors s.player_room
            · simp [moveBranch, hr, hrn, h2]
            · simp [moveBranch, hr, hrn]
      rcases hty with hty | hty <;> simp [branchStep, hty, hmv]
    rcases hty with hty | hty <;> simp [Rules.apply, hty, hb]
  · -- illegal SHOOT with fewer than two actions taken
    have hsb : shootBranch s (initW s) = initW s := by
      simp only [shootBranch, initW]
      rw [if_neg]
      simpa using hng
    have happ : Rules.apply s a = finalize s (endTurnStep a (shootBranch s (initW s))) := by
      simp [Rules.apply, hty, branchStep]
    have het : endTurnStep a (initW s) = initW s := by
      unfold endTurnStep
      rw [if_neg]
      push_neg
      refine ⟨by simp [hty], ?_⟩
      simp only [initW]
      omega
    rw [happ, hsb, het]
    rfl
  · -- NEXT_PHASE during PLAYER
    simp [Rules.apply, hty, branchStep, hph]
  · -- reentrant END_PLAYER_PHASE
    have : s.phase ≠ Phase.PLAYER ∨ s.actions_in_turn ≠ 0 := hbad
    simp only [Rules.apply, hty]
    simp [this]
    cases branchStep s a <;> rfl

/-- C1 counterexample to the claim as stated: with two actions already
taken this turn, an illegal SHOOT (no co-located intruder) still triggers
the end-of-turn block, so `actions_in_turn` resets from 2 to 0 — a field
other than `turn` changes. -/
theorem C1_counterexample :
    hasKey cs1.intruders cs1.player_room = false ∧
    cs1.actions_in_turn = 2 ∧
    (Rules.apply cs1 shootA).actions_in_turn = 0 ∧
    Rules.apply cs1 shootA ≠ { cs1 with turn := cs1.turn + 1 } := by
  refine ⟨rfl, rfl, rfl, ?_⟩
  intro h
  have := congrArg GameState.actions_in_turn h
  exact absurd this (by decide)

/-- Witness for C1 at a concrete input: NEXT_PHASE during the PLAYER
phase of the default state is NOOP-equivalent. -/
theorem C1_witness :
    Rules.apply sDef nextA = { sDef with turn := sDef.turn + 1 } :=
  C1_illegal_action_noop sDef nextA
    (Or.inr (Or.inr (Or.inr (Or.inl ⟨rfl, rfl⟩))))

-- ---------------------------------------------------------------------------
-- C3 : SHOOT resolution
-- ---------------------------------------------------------------------------

/-- C3 (amended): for a SHOOT with a co-located intruder, ammo and an
unjammed weapon, the outcome is **miss when the deck is exhausted
(≤ 0), and only otherwise** jam on divisibility by 13, else crit on
divisibility by 7, else hit (the claim as stated puts the divisibility
tests before the exhaustion test; the source tests exhaustion first —
see `C3_counterexample`).  A hit deals 1 damage and a crit 2 via
`damageIntruder` (which removes the intruder at HP ≤ 0), a jam sets
`weapon_jammed` and deals no damage, a miss deals none, and the deck is
decremented by 1 floored at 0 regardless of outcome. -/
theorem C3_shoot_resolution (s : GameState)
    (hin : hasKey s.intruders s.player_room = true)
    (ham : s.ammo > 0) (hj : s.weapon_jammed = false) :
    (Rules.apply s shootA).attack_deck = max (s.attack_deck - 1) 0 ∧
    (attackOutcome s.attack_deck = .jam →
      (Rules.apply s shootA).weapon_jammed = true ∧
      (Rules.apply s shootA).intruders = s.intruders) ∧
    (attackOutcome s.attack_deck = .miss →
      (Rules.apply s shootA).weapon_jammed = false ∧
      (Rules.apply s shootA).intruders = s.intruders) ∧
    (attackOutcome s.attack_deck = .hit →
      (Rules.apply s shootA).weapon_jammed = false ∧
      (Rules.apply s shootA).intruders = damageIntruder s.intruders s.player_room 1) ∧
    (attackOutcome s.attack_deck = .crit →
      (Rules.apply s shootA).weapon_jammed = false ∧
      (Rules.apply s shootA).intruders = damageIntruder s.intruders s.player_room 2) ∧
    (s.attack_deck ≤ 0 → attackOutcome s.attack_deck = .miss) ∧
    (¬ s.attack_deck ≤ 0 → s.attack_deck % 13 = 0 → attackOutcome s.attack_deck = .jam) ∧
    (¬ s.attack_deck ≤ 0 → ¬ s.attack_deck % 13 = 0 → s.attack_deck % 7 = 0 →
      attackOutcome s.attack_deck = .crit) ∧
    (¬ s.attack_deck ≤ 0 → ¬ s.attack_deck % 13 = 0 → ¬ s.attack_deck % 7 = 0 →
      attackOutcome s.attack_deck = .hit) := by
  have hb : branchStep s shootA = some (shootBranch s (initW s)) := rfl
  have happ : Rules.apply s shootA =
      finalize s (endTurnStep shootA (shootBranch s (initW s))) :=
    apply_eq_finalize s shootA _ (by decide) (by decide) (by decide) hb
  have hdeck : (shootBranch s (initW s)).st.attack_deck = max (s.attack_deck - 1) 0 := by
    simp only [shootBranch]
    rw [if_pos ⟨hin, ham, hj⟩]
  have hwj : (shootBranch s (initW s)).st.weapon_jammed =
      (if attackOutcome s.attack_deck = .jam then true else s.weapon_jammed) := by
    simp only [shootBranch]
    rw [if_pos ⟨hin, ham, hj⟩]
  have hint : (shootBranch s (initW s)).st.intruders =
      (if attackOutcome s.attack_deck = .hit then
        damageIntruder s.intruders s.player_room 1
      else if attackOutcome s.attack_deck = .crit then
        damageIntruder s.intruders s.player_room 2
      else s.intruders) := by
    simp only [shootBranch]
    rw [if_pos ⟨hin, ham, hj⟩]
  refine ⟨?_, ?_, ?_, ?_, ?_, ?_, ?_, ?_, ?_⟩
  · rw [happ]; simpa using hdeck
  · intro ho
    rw [happ]
    simp only [finalize_weapon_jammed, finalize_intruders, endTurnStep_st]
    rw [hwj, hint, ho]
    simp
  · intro ho
    rw [happ]
    simp only [finalize_weapon_jammed, finalize_intruders, endTurnStep_st]
    rw [hwj, hint, ho]
    simp [hj]
  · intro ho
    rw [happ]
    simp only [finalize_weapon_jammed, finalize_intruders, endTurnStep_st]
    rw [hwj, hint, ho]
    simp [hj]
  · intro ho
    rw [happ]
    simp only [finalize_weapon_jammed, finalize_intruders, endTurnStep_st]
    rw [hwj, hint, ho]
    simp [hj]
  · intro h0; simp [attackOutcome, h0]
  · intro h0 h13; simp [attackOutcome, h0, h13]
  · intro h0 h13 h7; simp [attackOutcome, h0, h13, h7]
  · intro h0 h13 h7; simp [attackOutcome, h0, h13, h7]

/-- C3 counterexample to the claim as stated: at `attack_deck = 0` the
claim's ordering (`0 % 13 = 0` first) predicts a jam, hence
`weapon_jammed = true`; the code tests exhaustion first, resolves a miss,
and leaves the weapon unjammed and the intruder untouched. -/
theorem C3_counterexample :
    specAttackOutcome cs3.attack_deck = .jam ∧
    attackOutcome cs3.attack_deck = .miss ∧
    hasKey cs3.intruders cs3.player_room = true ∧ cs3.ammo > 0 ∧
    cs3.weapon_jammed = false ∧
    (Rules.apply cs3 shootA).weapon_jammed = false ∧
    (Rules.apply cs3 shootA).intruders = cs3.intruders := by
  refine ⟨by decide, by decide, by decide, by decide, by decide, ?_, ?_⟩ <;> decide

/-- Witness for C3 at a concrete input: the spec §8 scenario — intruder
with 2 HP, `attack_deck = 14` (a crit), one SHOOT removes it entirely. -/
theorem C3_witness :
    attackOutcome cs3w.attack_deck = .crit ∧
    (Rules.apply cs3w shootA).intruders = [] ∧
    (Rules.apply cs3w shootA).attack_deck = 13 := by
  have h := C3_shoot_resolution cs3w (by decide) (by decide) (by decide)
  refine ⟨by decide, ?_, ?_⟩
  · exact ((h.2.2.2.2.1 (by decide)).2).trans (by decide)
  · exact h.1.trans (by decide)

-- ---------------------------------------------------------------------------
-- preservation lemmas for the phase-effect steps
-- ---------------------------------------------------------------------------

section StepFrames

variable (s : GameState) (a : Action) (w : Work)

@[simp] theorem enemyStep_nn : (enemyStep w).nn = w.nn := rfl
@[simp] theorem enemyStep_nrn : (enemyStep w).nrn = w.nrn := rfl
@[simp] theorem enemyStep_ait : (enemyStep w).ait = w.ait := rfl
@[simp] theorem enemyStep_oxy : (enemyStep w).oxy = w.oxy := rfl
@[simp] theorem enemyStep_drs : (enemyStep w).drs = w.drs := rfl
@[simp] theorem enemyStep_ph : (enemyStep w).ph = w.ph := rfl
@[simp] theorem enemyStep_ammo : (enemyStep w).st.ammo = w.st.ammo := rfl
@[simp] theorem enemyStep_ammo_max : (enemyStep w).st.ammo_max = w.st.ammo_max := rfl
@[simp] theorem enemyStep_round : (enemyStep w).st.round = w.st.round := rfl
@[simp] theorem enemyStep_intruders : (enemyStep w).st.intruders = w.st.intruders := rfl

theorem enemyStep_hp_nonneg (h : 0 ≤ w.hp) : 0 ≤ (enemyStep w).hp := by
  unfold enemyStep
  dsimp only
  split
  · next hc => have := hc.2; omega
  · exact h

theorem cleanupStep_ammo : (cleanupStep w).st.ammo = w.st.ammo := by
  simp only [cleanupStep]
  repeat' split
  all_goals rfl

theorem cleanupStep_ammo_max : (cleanupStep w).st.ammo_max = w.st.ammo_max := by
  simp only [cleanupStep]
  repeat' split
  all_goals rfl

theorem cleanupStep_hp : (cleanupStep w).hp = w.hp := by
  simp only [cleanupStep]
  repeat' split
  all_goals rfl

theorem cleanupStep_oxy : (cleanupStep w).oxy = w.oxy := by
  simp only [cleanupStep]
  repeat' split
  all_goals rfl

theorem cleanupStep_ph : (cleanupStep w).ph = w.ph := by
  simp only [cleanupStep]
  repeat' split
  all_goals rfl

theorem cleanupStep_intruders : (cleanupStep w).st.intruders = w.st.intruders := by
  simp only [cleanupStep]
  repeat' split
  all_goals rfl

theorem cleanupStep_ait : (cleanupStep w).ait = w.ait := by
  simp only [cleanupStep]
  repeat' split
  all_goals rfl

theorem cleanupStep_round : (cleanupStep w).st.round = w.st.round + 1 := by
  simp only [cleanupStep]
  repeat' split
  all_goals rfl

theorem cleanupStep_timer :
    (cleanupStep w).st.destruction_timer =
      (if w.st.self_destruct_armed = true ∧ w.st.destruction_timer > 0 then
        w.st.destruction_timer - 1
      else w.st.destruction_timer) := by
  simp only [cleanupStep]
  repeat' split
  all_goals rfl

theorem cleanupStep_game_over
    (harm : w.st.self_destruct_armed = true)
    (hgo : w.st.game_over = false)
    (htz : (cleanupStep w).st.destruction_timer = 0) :
    (cleanupStep w).st.game_over = true ∧ (cleanupStep w).st.win = false := by
  rw [cleanupStep_timer] at htz
  simp only [cleanupStep]
  split
  · next hc =>
    rw [if_pos hc] at htz
    split
    · exact ⟨rfl, rfl⟩
    · next h => exact absurd ⟨harm, htz, hgo⟩ h
  · next hc =>
    rw [if_neg hc] at htz
    split
    · exact ⟨rfl, rfl⟩
    · next h => exact absurd ⟨harm, htz, hgo⟩ h

theorem eventStep_ammo : (eventStep a w).st.ammo = w.st.ammo := by
  simp only [eventStep]
  repeat' split
  all_goals rfl

theorem eventStep_ammo_max : (eventStep a w).st.ammo_max = w.st.ammo_max := by
  simp only [eventStep]
  repeat' split
  all_goals rfl

theorem eventStep_round : (eventStep a w).st.round = w.st.round := by
  simp only [eventStep]
  repeat' split
  all_goals rfl

theorem eventStep_ph : (eventStep a w).ph = w.ph := by
  simp only [eventStep]
  repeat' split
  all_goals rfl

theorem eventStep_ait : (eventStep a w).ait = w.ait := by
  simp only [eventStep]
  repeat' split
  all_goals rfl

theorem eventStep_oxy : (eventStep a w).oxy = w.oxy := by
  simp only [eventStep]
  repeat' split
  all_goals rfl

theorem eventStep_hp_eq :
    (eventStep a w).hp =
      (if hasKey (moveIntruders w.st (bfsDist w.st)) w.st.player_room = true ∧ w.hp > 0
        then w.hp - 1 else w.hp) := by
  simp only [eventStep]
  repeat' split
  all_goals rfl

theorem eventStep_hp_nonneg (h : 0 ≤ w.hp) : 0 ≤ (eventStep a w).hp := by
  rw [eventStep_hp_eq]
  split
  · next hc => have := hc.2; omega
  · exact h

theorem eventStep_intruders_eq :
    (eventStep a w).st.intruders = moveIntruders w.st (bfsDist w.st) ∨
    (eventStep a w).st.intruders =
      setKey (moveIntruders w.st (bfsDist w.st)) w.st.player_room 1 := by
  simp only [eventStep]
  repeat' split
  all_goals first | (left; rfl) | (right; rfl)

theorem eventStep_intruders_pos (h : ∀ p ∈ w.st.intruders, 1 ≤ p.2) :
    ∀ p ∈ (eventStep a w).st.intruders, 1 ≤ p.2 := by
  have hmoved := @forall_moveIntruders w.st (bfsDist w.st) h
  rcases eventStep_intruders_eq a w with he | he <;> rw [he]
  · exact hmoved
  · exact forall_setKey hmoved (by omega)

theorem endTurnStep_hp_nonneg (h : 0 ≤ w.hp) : 0 ≤ (endTurnStep a w).hp := by
  unfold endTurnStep
  split
  · dsimp only
    split
    · next hc => have := hc.2; omega
    · exact h
  · exact h

theorem endTurnStep_oxy_nonneg (h : 0 ≤ w.oxy) : 0 ≤ (endTurnStep a w).oxy := by
  unfold endTurnStep
  split
  · dsimp only
    split
    · next hc => have := hc.2; omega
    · exact h
  · exact h

end StepFrames

-- ---------------------------------------------------------------------------
-- frame lemmas for the per-action branches
-- ---------------------------------------------------------------------------

section BranchFrames

variable (s : GameState) (a : Action) (w0 w : Work)

theorem moveBranch_frame (h : moveBranch s a w0 = some w) :
    w.st.ammo = w0.st.ammo ∧ w.st.ammo_max = w0.st.ammo_max ∧
    w.hp = w0.hp ∧ w.oxy = w0.oxy ∧
    (w.st.intruders = w0.st.intruders ∨
      ∃ r, w.st.intruders = setKey w0.st.intruders r 1) := by
  simp only [moveBranch] at h
  repeat' split at h
  all_goals
    first
      | exact Option.noConfusion h
      | (have hw := Option.some.inj h
         subst hw
         refine ⟨rfl, rfl, rfl, rfl, ?_⟩
         first
           | (left; rfl)
           | (right; exact ⟨_, rfl⟩))

theorem doorBranch_frame (h : doorBranch s a w0 = some w) :
    w.st = w0.st ∧ w.hp = w0.hp ∧ w.oxy = w0.oxy := by
  simp only [doorBranch] at h
  repeat' split at h
  all_goals
    first
      | exact Option.noConfusion h
      | (have hw := Option.some.inj h
         subst hw
         exact ⟨rfl, rfl, rfl⟩)

theorem shootBranch_frame :
    (shootBranch s (initW s)).st.ammo_max = s.ammo_max ∧
    (shootBranch s (initW s)).hp = s.health ∧
    (shootBranch s (initW s)).oxy = s.oxygen ∧
    ((shootBranch s (initW s)).st.ammo = s.ammo ∨
      (0 < s.ammo ∧
        (shootBranch s (initW s)).st.ammo =
          max (s.ammo - (if lastBulletTrigger s.attack_deck then 1 else 0)) 0)) ∧
    ((shootBranch s (initW s)).st.intruders = s.intruders ∨
      ∃ d, (shootBranch s (initW s)).st.intruders =
        damageIntruder s.intruders s.player_room d) := by
  simp only [shootBranch]
  split
  · next hg =>
    refine ⟨rfl, rfl, rfl, Or.inr ⟨hg.2.1, rfl⟩, ?_⟩
    repeat' split
    all_goals first | (left; rfl) | (right; exact ⟨_, rfl⟩)
  · exact ⟨rfl, rfl, rfl, Or.inl rfl, Or.inl rfl⟩

theorem burstBranch_frame :
    (burstBranch s (initW s)).st.ammo_max = s.ammo_max ∧
    (burstBranch s (initW s)).hp = s.health ∧
    (burstBranch s (initW s)).oxy = s.oxygen ∧
    ((burstBranch s (initW s)).st.ammo = s.ammo ∨
      (0 < s.ammo ∧ (burstBranch s (initW s)).st.ammo = s.ammo - 1)) ∧
    ((burstBranch s (initW s)).st.intruders = s.intruders ∨
      ∃ d, (burstBranch s (initW s)).st.intruders =
        damageIntruder s.intruders s.player_room d) := by
  simp only [burstBranch]
  split
  · next hg =>
    refine ⟨rfl, rfl, rfl, Or.inr ⟨hg.2.1, rfl⟩, ?_⟩
    repeat' split
    all_goals first | (left; rfl) | (right; exact ⟨_, rfl⟩)
  · exact ⟨rfl, rfl, rfl, Or.inl rfl, Or.inl rfl⟩

theorem meleeBranch_hp (h : 0 ≤ s.health) : 0 ≤ (meleeBranch s (initW s)).hp := by
  simp only [meleeBranch]
  repeat' split
  all_goals simp only [initW] at *
  all_goals omega

theorem meleeBranch_frame :
    (meleeBranch s (initW s)).st.ammo = s.ammo ∧
    (meleeBranch s (initW s)).st.ammo_max = s.ammo_max ∧
    (meleeBranch s (initW s)).oxy = s.oxygen ∧
    ((meleeBranch s (initW s)).st.intruders = s.intruders ∨
      (meleeBranch s (initW s)).st.intruders =
        damageIntruder s.intruders s.player_room 1) := by
  refine ⟨?_, ?_, ?_, ?_⟩
  · simp only [meleeBranch]
    repeat' split
    all_goals rfl
  · simp only [meleeBranch]
    repeat' split
    all_goals rfl
  · simp only [meleeBranch]
    repeat' split
    all_goals rfl
  · simp only [meleeBranch]
    repeat' split
    all_goals first | (left; rfl) | (right; rfl)

theorem useRoomBranch_hp (h : 0 ≤ s.health) : 0 ≤ (useRoomBranch s (initW s)).hp := by
  simp only [useRoomBranch]
  repeat' split
  all_goals simp only [initW] at *
  all_goals omega

theorem useRoomBranch_ammo :
    (useRoomBranch s (initW s)).st.ammo = s.ammo ∨
      (s.ammo < s.ammo_max ∧ (useRoomBranch s (initW s)).st.ammo = s.ammo_max) := by
  simp only [useRoomBranch]
  repeat' split
  all_goals
    first
      | (left; rfl)
      | (right; refine ⟨?_, rfl⟩; simp_all [initW])

theorem useRoomBranch_frame :
    (useRoomBranch s (initW s)).st.intruders = s.intruders ∧
    (useRoomBranch s (initW s)).st.ammo_max = s.ammo_max ∧
    (useRoomBranch s (initW s)).oxy = s.oxygen := by
  refine ⟨?_, ?_, ?_⟩
  all_goals
    simp only [useRoomBranch]
  all_goals
    repeat' split
  all_goals rfl

/-- Invariant transport through the per-action dispatch: the branch
preserves oxygen, keeps health nonnegative, never touches `ammo_max`,
keeps ammo within `[0, ammo_max]`, and keeps every intruder HP ≥ 1. -/
theorem branchStep_inv (s : GameState) (a : Action) (w : Work)
    (hb : branchStep s a = some w) :
    w.oxy = s.oxygen ∧
    (0 ≤ s.health → 0 ≤ w.hp) ∧
    w.st.ammo_max = s.ammo_max ∧
    (0 ≤ s.ammo → 0 ≤ w.st.ammo) ∧
    (0 ≤ s.ammo → s.ammo ≤ s.ammo_max → w.st.ammo ≤ s.ammo_max) ∧
    ((∀ p ∈ s.intruders, 1 ≤ p.2) → ∀ p ∈ w.st.intruders, 1 ≤ p.2) := by
  cases hty : a.type
  all_goals simp only [branchStep, hty] at hb
  case MOVE | MOVE_CAUTIOUS =>
    obtain ⟨ha, hamax, hhp, hoxy, hintr⟩ := moveBranch_frame s a (initW s) w hb
    refine ⟨hoxy, ?_, hamax, ?_, ?_, ?_⟩
    · intro h; rw [hhp]; exact h
    · intro h; rw [ha]; exact h
    · intro h0 h1; rw [ha]; exact h1
    · intro h
      rcases hintr with he | ⟨r, he⟩ <;> rw [he]
      · exact h
      · exact forall_setKey h (by omega)
  case OPEN_DOOR | CLOSE_DOOR =>
    obtain ⟨hst, hhp, hoxy⟩ := doorBranch_frame s a (initW s) w hb
    rw [hst, hhp, hoxy]
    exact ⟨rfl, fun h => h, rfl, fun h => h, fun _ h1 => h1, fun h => h⟩
  case SHOOT =>
    obtain ⟨hamax, hhp, hoxy, hammo, hintr⟩ := shootBranch_frame s
    have hw := Option.some.inj hb
    subst hw
    refine ⟨hoxy, ?_, hamax, ?_, ?_, ?_⟩
    · intro h; rw [hhp]; exact h
    · intro h
      rcases hammo with he | ⟨hpos, he⟩ <;> rw [he]
      · exact h
      · exact le_max_right _ _
    · intro h0 h1
      rcases hammo with he | ⟨hpos, he⟩ <;> rw [he]
      · exact h1
      · apply max_le
        · split <;> omega
        · omega
    · intro h
      rcases hintr with he | ⟨d, he⟩ <;> rw [he]
      · exact h
      · exact forall_damageIntruder h
  case BURST =>
    obtain ⟨hamax, hhp, hoxy, hammo, hintr⟩ := burstBranch_frame s
    have hw := Option.some.inj hb
    subst hw
    refine ⟨hoxy, ?_, hamax, ?_, ?_, ?_⟩
    · intro h; rw [hhp]; exact h
    · intro h
      rcases hammo with he | ⟨hpos, he⟩ <;> rw [he]
      · exact h
      · omega
    · intro h0 h1
      rcases hammo with he | ⟨hpos, he⟩ <;> rw [he] <;> omega
    · intro h
      rcases hintr with he | ⟨d, he⟩ <;> rw [he]
      · exact h
      · exact forall_damageIntruder h
  case MELEE =>
    obtain ⟨ha, hamax, hoxy, hintr⟩ := meleeBranch_frame s
    have hw := Option.some.inj hb
    subst hw
    refine ⟨hoxy, fun h => meleeBranch_hp s h, hamax, ?_, ?_, ?_⟩
    · intro h; rw [ha]; exact h
    · intro h0 h1; rw [ha]; exact h1
    · intro h
      rcases hintr with he | he <;> rw [he]
      · exact h
      · exact forall_damageIntruder h
  case USE_ROOM =>
    obtain ⟨hintr, hamax, hoxy⟩ := useRoomBranch_frame s
    have hw := Option.some.inj hb
    subst hw
    refine ⟨hoxy, fun h => useRoomBranch_hp s h, hamax, ?_, ?_, ?_⟩
    · intro h0
      rcases useRoomBranch_ammo s with he | ⟨hlt, he⟩ <;> rw [he] <;> omega
    · intro h0 h1
      rcases useRoomBranch_ammo s with he | ⟨hlt, he⟩
      · rw [he]; omega
      · rw [he]
    · intro h; rw [hintr]; exact h
  all_goals
    have hw := Option.some.inj hb
  all_goals
    subst hw
  all_goals
    exact ⟨rfl, fun h => h, rfl, fun h => h, fun _ h1 => h1, fun h => h⟩

end BranchFrames

/-- Invariant transport through the whole of `Rules.apply`: `ammo_max` is
never written; ammo stays in `[0, ammo_max]`; health and oxygen stay
nonnegative; every intruder HP stays ≥ 1. -/
theorem apply_inv (s : GameState) (a : Action) :
    (Rules.apply s a).ammo_max = s.ammo_max ∧
    (0 ≤ s.ammo → 0 ≤ (Rules.apply s a).ammo) ∧
    (0 ≤ s.ammo → s.ammo ≤ s.ammo_max → (Rules.apply s a).ammo ≤ s.ammo_max) ∧
    (0 ≤ s.health → 0 ≤ (Rules.apply s a).health) ∧
    (0 ≤ s.oxygen → 0 ≤ (Rules.apply s a).oxygen) ∧
    ((∀ p ∈ s.intruders, 1 ≤ p.2) → ∀ p ∈ (Rules.apply s a).intruders, 1 ≤ p.2) := by
  by_cases hn : a.type = ActionType.NOOP
  · have happ : Rules.apply s a = { s with turn := s.turn + 1 } := by
      simp only [Rules.apply, if_pos hn]
    rw [happ]
    exact ⟨rfl, fun h => h, fun _ h1 => h1, fun h => h, fun h => h, fun h => h⟩
  cases hb : branchStep s a with
  | none =>
    have happ : Rules.apply s a = { s with turn := s.turn + 1 } := by
      simp only [Rules.apply, if_neg hn, hb]
    rw [happ]
    exact ⟨rfl, fun h => h, fun _ h1 => h1, fun h => h, fun h => h, fun h => h⟩
  | some w0 =>
    obtain ⟨hoxy, hhp, hmax, ha0, ha1, hintr⟩ := branchStep_inv s a w0 hb
    have hw1oxy : ∀ h : 0 ≤ s.oxygen, 0 ≤ (endTurnStep a w0).oxy := by
      intro h
      apply endTurnStep_oxy_nonneg
      rw [hoxy]; exact h
    have hw1hp : ∀ h : 0 ≤ s.health, 0 ≤ (endTurnStep a w0).hp := by
      intro h
      exact endTurnStep_hp_nonneg a w0 (hhp h)
    by_cases hepp : a.type = ActionType.END_PLAYER_PHASE
    · have happ : Rules.apply s a =
          (if s.phase ≠ Phase.PLAYER ∨ s.actions_in_turn ≠ 0 then
            { s with turn := s.turn + 1 }
          else finalize s (enemyStep { endTurnStep a w0 with ph := Phase.ENEMY })) := by
        simp only [Rules.apply, if_neg hn, hb, if_pos hepp]
      rw [happ]
      split
      · exact ⟨rfl, fun h => h, fun _ h1 => h1, fun h => h, fun h => h, fun h => h⟩
      · refine ⟨?_, ?_, ?_, ?_, ?_, ?_⟩
        · show (enemyStep _).st.ammo_max = s.ammo_max
          rw [enemyStep_ammo_max]
          show (endTurnStep a w0).st.ammo_max = s.ammo_max
          rw [endTurnStep_st]; exact hmax
        · intro h
          show 0 ≤ (enemyStep _).st.ammo
          rw [enemyStep_ammo]
          show 0 ≤ (endTurnStep a w0).st.ammo
          rw [endTurnStep_st]; exact ha0 h
        · intro h0 h1
          show (enemyStep _).st.ammo ≤ _
          rw [enemyStep_ammo]
          show (endTurnStep a w0).st.ammo ≤ _
          rw [endTurnStep_st]
          exact ha1 h0 h1
        · intro h
          exact enemyStep_hp_nonneg _ (hw1hp h)
        · intro h
          show 0 ≤ (enemyStep _).oxy
          rw [enemyStep_oxy]
          exact hw1oxy h
        · intro h
          show ∀ p ∈ (enemyStep _).st.intruders, 1 ≤ p.2
          rw [enemyStep_intruders]
          show ∀ p ∈ (endTurnStep a w0).st.intruders, 1 ≤ p.2
          rw [endTurnStep_st]
          exact hintr h
    by_cases hnx : a.type = ActionType.NEXT_PHASE
    · have happ : Rules.apply s a =
          (if s.phase = Phase.PLAYER then { s with turn := s.turn + 1 }
          else
            finalize s
              (if cyclePhase s.phase = Phase.ENEMY then
                enemyStep { endTurnStep a w0 with ph := cyclePhase s.phase }
              else if cyclePhase s.phase = Phase.EVENT then
                eventStep a { endTurnStep a w0 with ph := cyclePhase s.phase }
              else if cyclePhase s.phase = Phase.CLEANUP then
                cleanupStep { endTurnStep a w0 with ph := cyclePhase s.phase }
              else { endTurnStep a w0 with ph := cyclePhase s.phase })) := by
        simp only [Rules.apply, if_neg hn, hb, if_neg hepp, if_pos hnx]
      rw [happ]
      split
      · exact ⟨rfl, fun h => h, fun _ h1 => h1, fun h => h, fun h => h, fun h => h⟩
      · split
        · -- ENEMY effects
          refine ⟨?_, ?_, ?_, ?_, ?_, ?_⟩
          · show (enemyStep _).st.ammo_max = s.ammo_max
            rw [enemyStep_ammo_max]
            show (endTurnStep a w0).st.ammo_max = s.ammo_max
            rw [endTurnStep_st]; exact hmax
          · intro h
            show 0 ≤ (enemyStep _).st.ammo
            rw [enemyStep_ammo]
            show 0 ≤ (endTurnStep a w0).st.ammo
            rw [endTurnStep_st]; exact ha0 h
          · intro h0 h1
            show (enemyStep _).st.ammo ≤ _
            rw [enemyStep_ammo]
            show (endTurnStep a w0).st.ammo ≤ _
            rw [endTurnStep_st]; exact ha1 h0 h1
          · intro h
            exact enemyStep_hp_nonneg _ (hw1hp h)
          · intro h
            show 0 ≤ (enemyStep _).oxy
            rw [enemyStep_oxy]
            exact hw1oxy h
          · intro h
            show ∀ p ∈ (enemyStep _).st.intruders, 1 ≤ p.2
            rw [enemyStep_intruders]
            show ∀ p ∈ (endTurnStep a w0).st.intruders, 1 ≤ p.2
            rw [endTurnStep_st]
            exact hintr h
        split
        · -- EVENT effects
          refine ⟨?_, ?_, ?_, ?_, ?_, ?_⟩
          · show (eventStep a _).st.ammo_max = s.ammo_max
            rw [eventStep_ammo_max]
            show (endTurnStep a w0).st.ammo_max = s.ammo_max
            rw [endTurnStep_st]; exact hmax
          · intro h
            show 0 ≤ (eventStep a _).st.ammo
            rw [eventStep_ammo]
            show 0 ≤ (endTurnStep a w0).st.ammo
            rw [endTurnStep_st]; exact ha0 h
          · intro h0 h1
            show (eventStep a _).st.ammo ≤ _
            rw [eventStep_ammo]
            show (endTurnStep a w0).st.ammo ≤ _
            rw [endTurnStep_st]; exact ha1 h0 h1
          · intro h
            exact eventStep_hp_nonneg a _ (hw1hp h)
          · intro h
            show 0 ≤ (eventStep a _).oxy
            rw [eventStep_oxy]
            exact hw1oxy h
          · intro h
            apply eventStep_intruders_pos
            show ∀ p ∈ (endTurnStep a w0).st.intruders, 1 ≤ p.2
            rw [endTurnStep_st]
            exact hintr h
        split
        · -- CLEANUP effects
          refine ⟨?_, ?_, ?_, ?_, ?_, ?_⟩
          · show (cleanupStep _).st.ammo_max = s.ammo_max
            rw [cleanupStep_ammo_max]
            show (endTurnStep a w0).st.ammo_max = s.ammo_max
            rw [endTurnStep_st]; exact hmax
          · intro h
            show 0 ≤ (cleanupStep _).st.ammo
            rw [cleanupStep_ammo]
            show 0 ≤ (endTurnStep a w0).st.ammo
            rw [endTurnStep_st]; exact ha0 h
          · intro h0 h1
            show (cleanupStep _).st.ammo ≤ _
            rw [cleanupStep_ammo]
            show (endTurnStep a w0).st.ammo ≤ _
            rw [endTurnStep_st]; exact ha1 h0 h1
          · intro h
            show 0 ≤ (cleanupStep _).hp
            rw [cleanupStep_hp]
            exact hw1hp h
          · intro h
            show 0 ≤ (cleanupStep _).oxy
            rw [cleanupStep_oxy]
            exact hw1oxy h
          · intro h
            show ∀ p ∈ (cleanupStep _).st.intruders, 1 ≤ p.2
            rw [cleanupStep_intruders]
            show ∀ p ∈ (endTurnStep a w0).st.intruders, 1 ≤ p.2
            rw [endTurnStep_st]
            exact hintr h
        · -- no phase-specific effects (back to PLAYER)
          refine ⟨?_, ?_, ?_, ?_, ?_, ?_⟩
          · show (endTurnStep a w0).st.ammo_max = s.ammo_max
            rw [endTurnStep_st]; exact hmax
          · intro h
            show 0 ≤ (endTurnStep a w0).st.ammo
            rw [endTurnStep_st]; exact ha0 h
          · intro h0 h1
            show (endTurnStep a w0).st.ammo ≤ _
            rw [endTurnStep_st]; exact ha1 h0 h1
          · intro h; exact hw1hp h
          · intro h; exact hw1oxy h
          · intro h
            show ∀ p ∈ (endTurnStep a w0).st.intruders, 1 ≤ p.2
            rw [endTurnStep_st]
            exact hintr h
    · rw [apply_eq_finalize s a w0 hn hepp hnx hb]
      refine ⟨?_, ?_, ?_, ?_, ?_, ?_⟩
      · show (endTurnStep a w0).st.ammo_max = s.ammo_max
        rw [endTurnStep_st]; exact hmax
      · intro h
        show 0 ≤ (endTurnStep a w0).st.ammo
        rw [endTurnStep_st]; exact ha0 h
      · intro h0 h1
        show (endTurnStep a w0).st.ammo ≤ _
        rw [endTurnStep_st]; exact ha1 h0 h1
      · intro h; exact hw1hp h
      · intro h; exact hw1oxy h
      · intro h
        show ∀ p ∈ (endTurnStep a w0).st.intruders, 1 ≤ p.2
        rw [endTurnStep_st]
        exact hintr h

-- ---------------------------------------------------------------------------
-- C9 : resources never go negative
-- ---------------------------------------------------------------------------

/-- C9: from any state with nonnegative health, oxygen and ammo, every
action leaves health, oxygen and ammo nonnegative — every health/oxygen
loss in the engine is guarded by a positivity test and every ammo
subtraction is floored at 0 (or guarded by `ammo > 0`). -/
theorem C9_resources_nonneg (s : GameState) (a : Action)
    (hh : 0 ≤ s.health) (ho : 0 ≤ s.oxygen) (ha : 0 ≤ s.ammo) :
    0 ≤ (Rules.apply s a).health ∧ 0 ≤ (Rules.apply s a).oxygen ∧
    0 ≤ (Rules.apply s a).ammo :=
  ⟨(apply_inv s a).2.2.2.1 hh, (apply_inv s a).2.2.2.2.1 ho,
   (apply_inv s a).2.1 ha⟩

/-- Witness for C9 at a concrete input (PASS from the default state). -/
theorem C9_witness :
    0 ≤ (Rules.apply sDef passA).health ∧ 0 ≤ (Rules.apply sDef passA).oxygen ∧
    0 ≤ (Rules.apply sDef passA).ammo :=
  C9_resources_nonneg sDef passA (by decide) (by decide) (by decide)

-- ---------------------------------------------------------------------------
-- C10 : intruder hit points stay ≥ 1
-- ---------------------------------------------------------------------------

/-- C10: if every intruder in `s` has HP ≥ 1 then after any action every
intruder still has HP ≥ 1 — spawns write HP exactly 1, combat damage
removes an intruder rather than storing a non-positive HP, and EVENT-phase
movement merges entries with `max`. -/
theorem C10_intruder_hp_positive (s : GameState) (a : Action)
    (h : ∀ p ∈ s.intruders, 1 ≤ p.2) :
    ∀ p ∈ (Rules.apply s a).intruders, 1 ≤ p.2 :=
  (apply_inv s a).2.2.2.2.2 h

/-- Witness for C10 at a concrete input: the ENEMY→EVENT transition moves
the 2-HP intruder from C to B, and every stored HP stays ≥ 1. -/
theorem C10_witness :
    ((Rules.apply csC10 nextA).intruders.all (fun p => decide (1 ≤ p.2))) = true :=
  List.all_eq_true.mpr
    (fun p hp => decide_eq_true (C10_intruder_hp_positive csC10 nextA
      (by decide) p hp))

-- ---------------------------------------------------------------------------
-- C4 : ammo conservation
-- ---------------------------------------------------------------------------

/-- C4 (amended): SHOOT (with a co-located intruder, ammo and an unjammed
weapon) spends 1 ammo exactly when the pre-decrement deck value is
**positive and** a multiple of 5 (the source's last-bullet trigger returns
false on a non-positive deck, so the bare "multiple of 5" of the claim
fails at deck 0 — see `C4_counterexample`); BURST always spends exactly 1;
and from any state with `0 ≤ ammo ≤ ammo_max`, every action keeps ammo in
`[0, ammo_max]`. -/
theorem C4_ammo_conservation :
    (∀ s : GameState, hasKey s.intruders s.player_room = true → s.ammo > 0 →
      s.weapon_jammed = false →
      ((0 < s.attack_deck ∧ s.attack_deck % 5 = 0 →
          (Rules.apply s shootA).ammo = s.ammo - 1) ∧
        (¬ (0 < s.attack_deck ∧ s.attack_deck % 5 = 0) →
          (Rules.apply s shootA).ammo = s.ammo) ∧
        (Rules.apply s burstA).ammo = s.ammo - 1)) ∧
    (∀ (s : GameState) (a : Action), 0 ≤ s.ammo → s.ammo ≤ s.ammo_max →
      0 ≤ (Rules.apply s a).ammo ∧
      (Rules.apply s a).ammo ≤ (Rules.apply s a).ammo_max) := by
  constructor
  · intro s hin ham hj
    have happS : Rules.apply s shootA =
        finalize s (endTurnStep shootA (shootBranch s (initW s))) :=
      apply_eq_finalize s shootA _ (by decide) (by decide) (by decide) rfl
    have happB : Rules.apply s burstA =
        finalize s (endTurnStep burstA (burstBranch s (initW s))) :=
      apply_eq_finalize s burstA _ (by decide) (by decide) (by decide) rfl
    have hamS : (shootBranch s (initW s)).st.ammo =
        max (s.ammo - (if lastBulletTrigger s.attack_deck then 1 else 0)) 0 := by
      simp only [shootBranch]
      rw [if_pos ⟨hin, ham, hj⟩]
    have hamB : (burstBranch s (initW s)).st.ammo = s.ammo - 1 := by
      simp only [burstBranch]
      rw [if_pos ⟨hin, ham, hj⟩]
    refine ⟨?_, ?_, ?_⟩
    · intro h5
      have htr : lastBulletTrigger s.attack_deck = true := by
        unfold lastBulletTrigger
        rw [if_pos h5.1]
        exact decide_eq_true h5.2
      rw [happS]
      simp only [finalize_ammo, endTurnStep_st]
      rw [hamS, htr]
      rw [if_pos rfl]
      rw [max_eq_left (by omega : (0:Int) ≤ s.ammo - 1)]
    · intro h5
      have htr : lastBulletTrigger s.attack_deck = false := by
        unfold lastBulletTrigger
        by_cases hd : s.attack_deck > 0
        · rw [if_pos hd]
          exact decide_eq_false (fun hc => h5 ⟨hd, hc⟩)
        · rw [if_neg hd]
      rw [happS]
      simp only [finalize_ammo, endTurnStep_st]
      rw [hamS, htr]
      rw [if_neg (by decide : ¬ (false = true))]
      rw [sub_zero, max_eq_left (by omega : (0:Int) ≤ s.ammo)]
    · rw [happB]
      simp only [finalize_ammo, endTurnStep_st]
      exact hamB
  · intro s a h0 h1
    refine ⟨(apply_inv s a).2.1 h0, ?_⟩
    rw [(apply_inv s a).1]
    exact (apply_inv s a).2.2.1 h0 h1

/-- C4 counterexample to the claim as stated: at `attack_deck = 0` (a
multiple of 5) the claim predicts an ammo spend, but the source's
last-bullet trigger requires a positive deck, so ammo is unchanged. -/
theorem C4_counterexample :
    cs4.attack_deck % 5 = 0 ∧
    hasKey cs4.intruders cs4.player_room = true ∧ cs4.ammo > 0 ∧
    cs4.weapon_jammed = false ∧
    (Rules.apply cs4 shootA).ammo = cs4.ammo := by
  refine ⟨by decide, by decide, by decide, by decide, by decide⟩

/-- Witness for C4 at a concrete input: deck 10 (positive multiple of 5)
spends ammo on SHOOT; BURST always spends; bounds hold. -/
theorem C4_witness :
    (Rules.apply cs4w shootA).ammo = cs4w.ammo - 1 ∧
    (Rules.apply cs4w burstA).ammo = cs4w.ammo - 1 ∧
    0 ≤ (Rules.apply cs4w shootA).ammo ∧
    (Rules.apply cs4w shootA).ammo ≤ (Rules.apply cs4w shootA).ammo_max := by
  obtain ⟨h1, h2⟩ := C4_ammo_conservation
  have ha := h1 cs4w (by decide) (by decide) (by decide)
  have hb := h2 cs4w shootA (by decide) (by decide)
  exact ⟨ha.1 (by decide), ha.2.2, hb.1, hb.2⟩

-- ---------------------------------------------------------------------------
-- supporting lemmas for the MOVE claims
-- ---------------------------------------------------------------------------

theorem lookup?_filter_none {K V : Type} [DecidableEq K]
    (m : List (K × V)) (pred : K × V → Bool) (k : K)
    (hk : ∀ v, pred (k, v) = false) :
    lookup? (m.filter pred) k = none := by
  induction m with
  | nil => rfl
  | cons p rest ih =>
    by_cases hp : p.1 = k
    · have hpred : pred p = false := by
        have := hk p.2
        rwa [show (k, p.2) = p by rw [← hp]] at this
      simpa [List.filter_cons, hpred] using ih
    · cases hpred : pred p
      · simpa [List.filter_cons, hpred] using ih
      · simp only [List.filter_cons, hpred, if_pos]
        unfold lookup? at ih ⊢
        rw [List.find?_cons_of_neg _ (by simpa using hp)]
        exact ih

theorem normEdge_component (x y : RoomId) :
    (normEdge x y).1 = y ∨ (normEdge x y).2 = y := by
  unfold normEdge
  split
  · right; rfl
  · left; rfl

theorem endTurnStep_ait_eq (a : Action) (w : Work) :
    (endTurnStep a w).ait =
      (if a.type = ActionType.PASS ∨ w.ait ≥ 2 then 0 else w.ait) := by
  unfold endTurnStep
  split <;> rfl

/-- Characterization of a legal MOVE / MOVE_CAUTIOUS branch: the player
moves, the action is counted, noise is placed, and the encounter check
either spawns (clearing incident noise) or leaves the intruders alone. -/
theorem moveBranch_legal (s : GameState) (a : Action) (r : RoomId)
    (hto : a.params.to = some r)
    (hn : r ∈ s.board.neighbors s.player_room)
    (hd : normEdge s.player_room r ∉ s.doors) :
    moveBranch s a (initW s) =
      (if ¬ hasKey s.intruders r ∧ spawnFlag s r then
        some { st := { s with player_room := r, intruders := setKey s.intruders r 1 }
               nn := (movePlacement s a (initW s) r (normEdge s.player_room r)).1.filter
                 (fun e => ¬ (e.1.1 = r ∨ e.1.2 = r))
               nrn := eraseKey (movePlacement s a (initW s) r (normEdge s.player_room r)).2 r
               ait := s.actions_in_turn + 1
               ph := s.phase, oxy := s.oxygen, hp := s.health, drs := s.doors }
      else
        some { st := { s with player_room := r }
               nn := (movePlacement s a (initW s) r (normEdge s.player_room r)).1
               nrn := (movePlacement s a (initW s) r (normEdge s.player_room r)).2
               ait := s.actions_in_turn + 1
               ph := s.phase, oxy := s.oxygen, hp := s.health, drs := s.doors }) := by
  simp only [moveBranch, hto]
  rw [if_pos hn, if_neg hd]
  rfl

-- ---------------------------------------------------------------------------
-- C2 : encounter spawning on movement
-- ---------------------------------------------------------------------------

/-- C2: for a legal MOVE or MOVE_CAUTIOUS into a room `r` holding no
intruder, if the pre-move maps satisfied the trigger (`spawnFlag`: room
noise ≥ 1 at `r` or incident corridor noise ≥ 1) then exactly one intruder
with 1 HP is written at `r`, every corridor-noise entry incident to `r` is
removed, and `r`'s room-noise entry is removed; with no such pre-move
noise the intruders map is unchanged. -/
theorem C2_encounter_spawn (s : GameState) (a : Action) (r : RoomId)
    (hty : a.type = ActionType.MOVE ∨ a.type = ActionType.MOVE_CAUTIOUS)
    (hto : a.params.to = some r)
    (hn : r ∈ s.board.neighbors s.player_room)
    (hd : normEdge s.player_room r ∉ s.doors)
    (hni : hasKey s.intruders r = false) :
    (spawnFlag s r = true →
      (Rules.apply s a).intruders = setKey s.intruders r 1 ∧
      (∀ e ∈ (Rules.apply s a).noise, e.1.1 ≠ r ∧ e.1.2 ≠ r) ∧
      lookup? (Rules.apply s a).room_noise r = none) ∧
    (spawnFlag s r = false → (Rules.apply s a).intruders = s.intruders) := by
  have hbs : branchStep s a = moveBranch s a (initW s) := by
    rcases hty with h | h <;> simp [branchStep, h]
  have hnn : a.type ≠ ActionType.NOOP := by rcases hty with h | h <;> simp [h]
  have hne : a.type ≠ ActionType.END_PLAYER_PHASE := by
    rcases hty with h | h <;> simp [h]
  have hnx : a.type ≠ ActionType.NEXT_PHASE := by rcases hty with h | h <;> simp [h]
  have hmb := moveBranch_legal s a r hto hn hd
  constructor
  · intro hsf
    rw [if_pos ⟨by simp [hni], hsf⟩] at hmb
    have happ := apply_eq_finalize s a _ hnn hne hnx (hbs.trans hmb)
    rw [happ]
    refine ⟨?_, ?_, ?_⟩
    · simp only [finalize_intruders, endTurnStep_st]
    · intro e he
      simp only [finalize_noise, endTurnStep_nn] at he
      have hpred := (List.mem_filter.mp he).2
      have hnp := of_decide_eq_true hpred
      exact ⟨fun hc => hnp (Or.inl hc), fun hc => hnp (Or.inr hc)⟩
    · simp only [finalize_room_noise, endTurnStep_nrn]
      exact lookup?_eraseKey_self _ _
  · intro hsf
    rw [if_neg (fun hc => by rw [hsf] at hc; exact absurd hc.2 (by simp))] at hmb
    have happ := apply_eq_finalize s a _ hnn hne hnx (hbs.trans hmb)
    rw [happ]
    simp only [finalize_intruders, endTurnStep_st]

/-- Witness for C2 at a concrete input: moving into B, which carries room
noise 1, spawns a 1-HP intruder and consumes the noise. -/
theorem C2_witness :
    spawnFlag cs5 "B" = true ∧
    (Rules.apply cs5 (moveTo "B")).intruders = [("B", 1)] ∧
    lookup? (Rules.apply cs5 (moveTo "B")).room_noise "B" = none := by
  have h := (C2_encounter_spawn cs5 (moveTo "B") "B" (Or.inl rfl) rfl
    (by decide) (by decide) (by decide)).1 (by decide)
  exact ⟨by decide, h.1.trans (by decide), h.2.2⟩

-- ---------------------------------------------------------------------------
-- C5 : MOVE semantics
-- ---------------------------------------------------------------------------

/-- C5 (amended): a legal MOVE with no noise-target override moves the
player and counts the action, but (i) `actions_in_turn` resets to 0 when
the increment reaches 2 (end of turn) instead of incrementing, and (ii)
the corridor noise on the traversed edge is incremented **unless** the
move triggers an encounter spawn at the destination, in which case all
incident corridor noise — the just-placed noise included — is cleared
(see `C5_counterexample`).  The closed-door scenario behaves as claimed:
the player stays put and only `turn` increments. -/
theorem C5_move_semantics :
    (∀ (s : GameState) (r : RoomId),
      s.phase = Phase.PLAYER →
      r ∈ s.board.neighbors s.player_room →
      normEdge s.player_room r ∉ s.doors →
      (Rules.apply s (moveTo r)).player_room = r ∧
      (Rules.apply s (moveTo r)).actions_in_turn =
        (if s.actions_in_turn + 1 ≥ 2 then 0 else s.actions_in_turn + 1) ∧
      ((hasKey s.intruders r = true ∨ spawnFlag s r = false) →
        lookupD (Rules.apply s (moveTo r)).noise (normEdge s.player_room r) 0 =
          lookupD s.noise (normEdge s.player_room r) 0 + 1) ∧
      (hasKey s.intruders r = false → spawnFlag s r = true →
        lookup? (Rules.apply s (moveTo r)).noise (normEdge s.player_room r) = none)) ∧
    (∀ (s : GameState) (r : RoomId),
      r ∈ s.board.neighbors s.player_room →
      normEdge s.player_room r ∈ s.doors →
      Rules.apply s (moveTo r) = { s with turn := s.turn + 1 }) := by
  constructor
  · intro s r _hph hn hd
    have hbs : branchStep s (moveTo r) = moveBranch s (moveTo r) (initW s) := rfl
    have hmb := moveBranch_legal s (moveTo r) r rfl hn hd
    have hkey : ∀ (w : Work), branchStep s (moveTo r) = some w →
        (Rules.apply s (moveTo r)).player_room = w.st.player_room ∧
        (Rules.apply s (moveTo r)).actions_in_turn = (endTurnStep (moveTo r) w).ait ∧
        (Rules.apply s (moveTo r)).noise = w.nn := by
      intro w hw
      have happ := apply_eq_finalize s (moveTo r) w (by simp [moveTo])
        (by simp [moveTo]) (by simp [moveTo]) hw
      rw [happ]
      refine ⟨?_, rfl, ?_⟩
      · simp only [finalize_player_room, endTurnStep_st]
      · simp only [finalize_noise, endTurnStep_nn]
    by_cases hc : ¬ hasKey s.intruders r ∧ spawnFlag s r
    · rw [if_pos hc] at hmb
      obtain ⟨h1, h2, h3⟩ := hkey _ (hbs.trans hmb)
      refine ⟨h1, ?_, ?_, ?_⟩
      · rw [h2, endTurnStep_ait_eq]
        simp [moveTo]
      · intro hcase
        exfalso
        rcases hcase with hk | hsf
        · rw [hk] at hc; exact hc.1 rfl
        · rw [hsf] at hc; exact absurd hc.2 (by simp)
      · intro _ _
        rw [h3]
        apply lookup?_filter_none
        intro v
        apply decide_eq_false
        intro hnp
        exact hnp (by
          rcases normEdge_component s.player_room r with h | h
          · exact Or.inl h
          · exact Or.inr h)
    · rw [if_neg hc] at hmb
      obtain ⟨h1, h2, h3⟩ := hkey _ (hbs.trans hmb)
      refine ⟨h1, ?_, ?_, ?_⟩
      · rw [h2, endTurnStep_ait_eq]
        simp [moveTo]
      · intro _
        rw [h3]
        show lookupD (bump s.noise (normEdge s.player_room r)) (normEdge s.player_room r) 0 = _
        exact lookupD_bump s.noise (normEdge s.player_room r)
      · intro hk hsf
        exfalso
        exact hc ⟨by simp [hk], hsf⟩
  · intro s r hn hd
    have hb : branchStep s (moveTo r) = none := by
      simp [branchStep, moveBranch, moveTo, hd]
    simp [Rules.apply, hb]

/-- C5 counterexample to the claim as stated: moving into B, which holds
pre-existing room noise (so the move spawns an intruder), leaves **no**
noise on the traversed edge (A,B) — the claim's unconditional
`noise[(A,B)] == 1` fails. -/
theorem C5_counterexample :
    cs5.phase = Phase.PLAYER ∧
    "B" ∈ cs5.board.neighbors cs5.player_room ∧
    normEdge cs5.player_room "B" ∉ cs5.doors ∧
    lookup? (Rules.apply cs5 (moveTo "B")).noise (normEdge cs5.player_room "B") =
      none ∧
    (Rules.apply cs5 (moveTo "B")).intruders = [("B", 1)] := by
  exact ⟨rfl, by decide, by decide, rfl, rfl⟩

/-- Witness for C5 at the spec §8 scenario: board A-B-C, player at A, no
doors — MOVE(to=B) puts the player at B with noise[(A,B)] = 1; the same
MOVE with door (A,B) closed leaves the state unchanged except `turn`. -/
theorem C5_witness :
    (Rules.apply sDef (moveTo "B")).player_room = "B" ∧
    lookupD (Rules.apply sDef (moveTo "B")).noise (normEdge sDef.player_room "B") 0 = 1 ∧
    Rules.apply csDoor (moveTo "B") = { csDoor with turn := csDoor.turn + 1 } := by
  obtain ⟨h1, h2⟩ := C5_move_semantics
  have ha := h1 sDef "B" rfl (by decide) (by decide)
  refine ⟨ha.1, ?_, ?_⟩
  · exact (ha.2.2.1 (Or.inr (by decide))).trans (by decide)
  · exact h2 csDoor "B" (by decide) (by decide)

-- ---------------------------------------------------------------------------
-- NEXT_PHASE step characterization, C7 and C8
-- ---------------------------------------------------------------------------

/-- Effect of `NEXT_PHASE` outside the PLAYER phase on the phase, round
and per-turn action counter: the phase advances one step in the cycle,
the round increments exactly on entry to CLEANUP, and the action counter
only resets via the end-of-turn guard. -/
theorem apply_next_phase (s : GameState) (hph : s.phase ≠ Phase.PLAYER) :
    (Rules.apply s nextA).phase = cyclePhase s.phase ∧
    (Rules.apply s nextA).round =
      (if cyclePhase s.phase = Phase.CLEANUP then s.round + 1 else s.round) ∧
    (Rules.apply s nextA).actions_in_turn =
      (if s.actions_in_turn ≥ 2 then 0 else s.actions_in_turn) := by
  have hraw : Rules.apply s nextA =
      (if s.phase = Phase.PLAYER then { s with turn := s.turn + 1 }
      else
        finalize s
          (if cyclePhase s.phase = Phase.ENEMY then
            enemyStep { endTurnStep nextA (initW s) with ph := cyclePhase s.phase }
          else if cyclePhase s.phase = Phase.EVENT then
            eventStep nextA { endTurnStep nextA (initW s) with ph := cyclePhase s.phase }
          else if cyclePhase s.phase = Phase.CLEANUP then
            cleanupStep { endTurnStep nextA (initW s) with ph := cyclePhase s.phase }
          else { endTurnStep nextA (initW s) with ph := cyclePhase s.phase })) := rfl
  have happ : Rules.apply s nextA =
      finalize s
        (if cyclePhase s.phase = Phase.ENEMY then
          enemyStep { endTurnStep nextA (initW s) with ph := cyclePhase s.phase }
        else if cyclePhase s.phase = Phase.EVENT then
          eventStep nextA { endTurnStep nextA (initW s) with ph := cyclePhase s.phase }
        else if cyclePhase s.phase = Phase.CLEANUP then
          cleanupStep { endTurnStep nextA (initW s) with ph := cyclePhase s.phase }
        else { endTurnStep nextA (initW s) with ph := cyclePhase s.phase }) := by
    rw [hraw, if_neg hph]
  have hait : (endTurnStep nextA (initW s)).ait =
      (if s.actions_in_turn ≥ 2 then 0 else s.actions_in_turn) := by
    rw [endTurnStep_ait_eq]
    simp [nextA]
  rw [happ]
  by_cases h1 : cyclePhase s.phase = Phase.ENEMY
  · rw [if_pos h1]
    refine ⟨rfl, ?_, ?_⟩
    · rw [if_neg (by rw [h1]; decide)]
      show (enemyStep _).st.round = s.round
      rw [enemyStep_round]
      show (endTurnStep nextA (initW s)).st.round = s.round
      rw [endTurnStep_st]
      rfl
    · show (enemyStep _).ait = _
      rw [enemyStep_ait]
      exact hait
  rw [if_neg h1]
  by_cases h2 : cyclePhase s.phase = Phase.EVENT
  · rw [if_pos h2]
    refine ⟨?_, ?_, ?_⟩
    · show (eventStep nextA _).ph = _
      rw [eventStep_ph]
    · rw [if_neg (by rw [h2]; decide)]
      show (eventStep nextA _).st.round = s.round
      rw [eventStep_round]
      show (endTurnStep nextA (initW s)).st.round = s.round
      rw [endTurnStep_st]
      rfl
    · show (eventStep nextA _).ait = _
      rw [eventStep_ait]
      exact hait
  rw [if_neg h2]
  by_cases h3 : cyclePhase s.phase = Phase.CLEANUP
  · rw [if_pos h3]
    refine ⟨?_, ?_, ?_⟩
    · show (cleanupStep _).ph = _
      rw [cleanupStep_ph]
    · rw [if_pos h3]
      show (cleanupStep _).st.round = s.round + 1
      rw [cleanupStep_round]
      show (endTurnStep nextA (initW s)).st.round + 1 = s.round + 1
      rw [endTurnStep_st]
      rfl
    · show (cleanupStep _).ait = _
      rw [cleanupStep_ait]
      exact hait
  · rw [if_neg h3, if_neg h3]
    exact ⟨rfl, by
      show (endTurnStep nextA (initW s)).st.round = s.round
      rw [endTurnStep_st]
      rfl, hait⟩

/-- C7: from PLAYER with no pending actions, END_PLAYER_PHASE enters
ENEMY, and three NEXT_PHASEs then traverse EVENT and CLEANUP and return
to PLAYER with `round` incremented exactly once; NEXT_PHASE applied during
PLAYER is NOOP-equivalent and never enters ENEMY. -/
theorem C7_phase_cycle (s : GameState)
    (hph : s.phase = Phase.PLAYER) (hait : s.actions_in_turn = 0) :
    (Rules.apply s eppA).phase = Phase.ENEMY ∧
    (Rules.apply (Rules.apply s eppA) nextA).phase = Phase.EVENT ∧
    (Rules.apply (Rules.apply (Rules.apply s eppA) nextA) nextA).phase =
      Phase.CLEANUP ∧
    (Rules.apply (Rules.apply (Rules.apply (Rules.apply s eppA) nextA) nextA)
      nextA).phase = Phase.PLAYER ∧
    (Rules.apply (Rules.apply (Rules.apply (Rules.apply s eppA) nextA) nextA)
      nextA).round = s.round + 1 ∧
    Rules.apply s nextA = { s with turn := s.turn + 1 } := by
  have hcond : ¬ (s.phase ≠ Phase.PLAYER ∨ s.actions_in_turn ≠ 0) := by
    simp [hph, hait]
  have hraw : Rules.apply s eppA =
      (if s.phase ≠ Phase.PLAYER ∨ s.actions_in_turn ≠ 0 then
        { s with turn := s.turn + 1 }
      else
        finalize s
          (enemyStep { endTurnStep eppA (initW s) with ph := Phase.ENEMY })) := rfl
  have happ1 : Rules.apply s eppA =
      finalize s (enemyStep { endTurnStep eppA (initW s) with ph := Phase.ENEMY }) := by
    rw [hraw, if_neg hcond]
  have h1ph : (Rules.apply s eppA).phase = Phase.ENEMY := by
    rw [happ1]
    rfl
  have h1round : (Rules.apply s eppA).round = s.round := by
    rw [happ1]
    show (enemyStep _).st.round = s.round
    rw [enemyStep_round]
    show (endTurnStep eppA (initW s)).st.round = s.round
    rw [endTurnStep_st]
    rfl
  have h1ait : (Rules.apply s eppA).actions_in_turn = 0 := by
    rw [happ1]
    show (enemyStep _).ait = 0
    rw [enemyStep_ait]
    show (endTurnStep eppA (initW s)).ait = 0
    rw [endTurnStep_ait_eq]
    simp [eppA, hait]
  obtain ⟨h2ph, h2round, _h2ait⟩ :=
    apply_next_phase (Rules.apply s eppA) (by rw [h1ph]; decide)
  rw [h1ph] at h2ph h2round
  have h2ph' : (Rules.apply (Rules.apply s eppA) nextA).phase = Phase.EVENT := by
    rw [h2ph]; rfl
  have h2round' : (Rules.apply (Rules.apply s eppA) nextA).round = s.round := by
    rw [h2round, if_neg (by decide), h1round]
  obtain ⟨h3ph, h3round, _⟩ :=
    apply_next_phase (Rules.apply (Rules.apply s eppA) nextA)
      (by rw [h2ph']; decide)
  rw [h2ph'] at h3ph h3round
  have h3ph' : (Rules.apply (Rules.apply (Rules.apply s eppA) nextA) nextA).phase =
      Phase.CLEANUP := by
    rw [h3ph]; rfl
  have h3round' : (Rules.apply (Rules.apply (Rules.apply s eppA) nextA) nextA).round =
      s.round + 1 := by
    rw [h3round, if_pos (by decide), h2round']
  obtain ⟨h4ph, h4round, _⟩ :=
    apply_next_phase (Rules.apply (Rules.apply (Rules.apply s eppA) nextA) nextA)
      (by rw [h3ph']; decide)
  rw [h3ph'] at h4ph h4round
  have h4ph' : (Rules.apply (Rules.apply (Rules.apply (Rules.apply s eppA) nextA)
      nextA) nextA).phase = Phase.PLAYER := by
    rw [h4ph]; rfl
  have h4round' : (Rules.apply (Rules.apply (Rules.apply (Rules.apply s eppA) nextA)
      nextA) nextA).round = s.round + 1 := by
    rw [h4round, if_neg (by decide), h3round']
  have hnoop : Rules.apply s nextA = { s with turn := s.turn + 1 } := by
    have hraw2 : Rules.apply s nextA =
        (if s.phase = Phase.PLAYER then { s with turn := s.turn + 1 }
        else
          finalize s
            (if cyclePhase s.phase = Phase.ENEMY then
              enemyStep { endTurnStep nextA (initW s) with ph := cyclePhase s.phase }
            else if cyclePhase s.phase = Phase.EVENT then
              eventStep nextA
                { endTurnStep nextA (initW s) with ph := cyclePhase s.phase }
            else if cyclePhase s.phase = Phase.CLEANUP then
              cleanupStep { endTurnStep nextA (initW s) with ph := cyclePhase s.phase }
            else { endTurnStep nextA (initW s) with ph := cyclePhase s.phase })) := rfl
    rw [hraw2, if_pos hph]
  exact ⟨h1ph, h2ph', h3ph', h4ph', h4round', hnoop⟩

/-- Witness for C7 at the default state. -/
theorem C7_witness :
    (Rules.apply sDef eppA).phase = Phase.ENEMY ∧
    (Rules.apply (Rules.apply (Rules.apply (Rules.apply sDef eppA) nextA) nextA)
      nextA).round = sDef.round + 1 := by
  have h := C7_phase_cycle sDef rfl rfl
  exact ⟨h.1, h.2.2.2.2.1⟩

-- ---------------------------------------------------------------------------
-- C8 : self-destruct arm, countdown, and loss
-- ---------------------------------------------------------------------------

/-- C8: USE_ROOM in an ENGINE room with the self-destruct unarmed arms it
with `destruction_timer = 3`; each EVENT→CLEANUP transition with the armed
timer positive decrements it by 1; and the CLEANUP transition at which the
armed timer lands on exactly 0 with the game not already over sets
`game_over = true` and `win = false`. -/
theorem C8_self_destruct :
    (∀ s : GameState,
      lookup? s.board.room_types s.player_room = some "ENGINE" →
      s.self_destruct_armed = false →
      (Rules.apply s useRoomA).self_destruct_armed = true ∧
      (Rules.apply s useRoomA).destruction_timer = 3) ∧
    (∀ s : GameState, s.phase = Phase.EVENT → s.self_destruct_armed = true →
      (0 < s.destruction_timer →
        (Rules.apply s nextA).destruction_timer = s.destruction_timer - 1) ∧
      (s.game_over = false → (Rules.apply s nextA).destruction_timer = 0 →
        (Rules.apply s nextA).game_over = true ∧
        (Rules.apply s nextA).win = false)) := by
  constructor
  · intro s heng harm
    have happ : Rules.apply s useRoomA =
        finalize s (endTurnStep useRoomA (useRoomBranch s (initW s))) :=
      apply_eq_finalize s useRoomA _ (by decide) (by decide) (by decide) rfl
    have hbr : (useRoomBranch s (initW s)).st.self_destruct_armed = true ∧
        (useRoomBranch s (initW s)).st.destruction_timer = 3 := by
      simp only [useRoomBranch, heng]
      rw [if_pos (show (initW s).st.self_destruct_armed = false from harm)]
      exact ⟨rfl, rfl⟩
    constructor
    · rw [happ]
      show (endTurnStep useRoomA (useRoomBranch s (initW s))).st.self_destruct_armed = true
      rw [endTurnStep_st]
      exact hbr.1
    · rw [happ]
      show (endTurnStep useRoomA (useRoomBranch s (initW s))).st.destruction_timer = 3
      rw [endTurnStep_st]
      exact hbr.2
  · intro s hph harm
    have hraw : Rules.apply s nextA =
        (if s.phase = Phase.PLAYER then { s with turn := s.turn + 1 }
        else
          finalize s
            (if cyclePhase s.phase = Phase.ENEMY then
              enemyStep { endTurnStep nextA (initW s) with ph := cyclePhase s.phase }
            else if cyclePhase s.phase = Phase.EVENT then
              eventStep nextA
                { endTurnStep nextA (initW s) with ph := cyclePhase s.phase }
            else if cyclePhase s.phase = Phase.CLEANUP then
              cleanupStep { endTurnStep nextA (initW s) with ph := cyclePhase s.phase }
            else { endTurnStep nextA (initW s) with ph := cyclePhase s.phase })) := rfl
    rw [hph] at hraw
    simp only [cyclePhase] at hraw
    have happ : Rules.apply s nextA =
        finalize s (cleanupStep { endTurnStep nextA (initW s) with
          ph := Phase.CLEANUP }) := by
      rw [hraw]
      rw [if_neg (show ¬ (Phase.EVENT = Phase.PLAYER) by decide)]
      rw [if_neg (show ¬ (Phase.CLEANUP = Phase.ENEMY) by decide)]
      rw [if_neg (show ¬ (Phase.CLEANUP = Phase.EVENT) by decide)]
      rw [if_pos (show True from trivial)]
    have hst : ({ endTurnStep nextA (initW s) with
        ph := Phase.CLEANUP } : Work).st = s := by
      show (endTurnStep nextA (initW s)).st = s
      rw [endTurnStep_st]
      rfl
    have htimer : (Rules.apply s nextA).destruction_timer =
        (if s.self_destruct_armed = true ∧ s.destruction_timer > 0 then
          s.destruction_timer - 1
        else s.destruction_timer) := by
      rw [happ]
      show (cleanupStep _).st.destruction_timer = _
      rw [cleanupStep_timer, hst]
    constructor
    · intro ht
      rw [htimer, if_pos ⟨harm, ht⟩]
    · intro hgo htz
      rw [happ]
      apply cleanupStep_game_over
      · rw [hst]; exact harm
      · rw [hst]; exact hgo
      · rw [happ] at htz
        exact htz

/-- Witness for C8 at concrete inputs: arming in the ENGINE room sets
timer 3; the armed EVENT→CLEANUP transition with one tick left drives the
timer to 0 and flags the loss. -/
theorem C8_witness :
    (Rules.apply csEng useRoomA).self_destruct_armed = true ∧
    (Rules.apply csEng useRoomA).destruction_timer = 3 ∧
    (Rules.apply csClean nextA).destruction_timer = 0 ∧
    (Rules.apply csClean nextA).game_over = true ∧
    (Rules.apply csClean nextA).win = false := by
  obtain ⟨h1, h2⟩ := C8_self_destruct
  have ha := h1 csEng rfl rfl
  have hc := h2 csClean rfl rfl
  have htz : (Rules.apply csClean nextA).destruction_timer = 0 :=
    (hc.1 (by decide)).trans (by decide)
  have hgo := hc.2 rfl htz
  exact ⟨ha.1, ha.2, htz, hgo.1, hgo.2⟩

end NRAI
